import Mathlib

/-!
# Verification of the Security Anomaly Detection engine

Shallow embedding of `Security/detect_anomalies.py` (class
`SecurityAnomalyDetector`) and proofs about it.

Modelling conventions:
* `timestamp` is seconds since the epoch (a naive instant).  The source keeps
  `pandas.Timestamp` values and serializes them with `isoformat()`; for
  equally formatted timestamps, lexicographic order of the ISO strings agrees
  with chronological order, so comparisons on `Nat` are faithful.
* Python `set` iteration order (used by `list(set(...))`) is not fixed by the
  language: string hashing is salted per process.  Every place the source
  builds `list(set(xs))` is therefore parameterized by an oracle
  `o : List String → List String`; a run of the program corresponds to some
  oracle satisfying `PySetList` (the result enumerates the distinct elements
  of `xs` in some order).
* `time_span.total_seconds()/60` (resp. `/3600`) is modelled by the exact
  rational `mkRat span 60` (resp. `mkRat span 3600`).
* The `reason` string and the `mitigation_suggestions` list of an anomaly are
  pure functions of fields that the embedded `Finding` already carries
  (`anomaly_type`, `severity`, and numeric data present in `details` or
  derivable from `timestamp`), so they are omitted from the record; equality
  of embedded findings implies equality of the full source dictionaries.
-/

/-- One row of the input log (the Event Store element). `action` is kept as a
raw string exactly like the CSV column; detectors compare it with string
literals, so unrecognized actions simply never match. -/
structure Event where
  timestamp : Nat
  user_id : String
  ip_address : String
  action : String
deriving Repr, DecidableEq

/-- `row['timestamp'].hour` for a naive instant counted in seconds. -/
def hourOf (t : Nat) : Nat := t % 86400 / 3600

/-- Last element of `x :: l`. -/
def lastOf {α : Type} (x : α) : List α → α
  | [] => x
  | y :: ys => lastOf y ys

def uniqueFirstAux (seen : List String) : List String → List String
  | [] => []
  | x :: xs => if x ∈ seen then uniqueFirstAux seen xs else x :: uniqueFirstAux (x :: seen) xs

/-- Distinct values in first-occurrence order (models `pandas.Series.unique`,
used as `self.df['ip_address'].unique()` / `self.df['user_id'].unique()`). -/
def uniqueFirst (l : List String) : List String := uniqueFirstAux [] l

/-- Oracles that can stand for Python's `list(set(xs))`: the result lists the
distinct elements of `xs` in some order. -/
def PySetList (o : List String → List String) : Prop :=
  ∀ xs : List String, (o xs).Perm xs.dedup

/-- A concrete admissible `list(set(...))` order. -/
def setOrderA (xs : List String) : List String := xs.dedup

/-- Another concrete admissible `list(set(...))` order. -/
def setOrderB (xs : List String) : List String := xs.dedup.reverse

/-! ## IP Classifier (`is_internal_ip`, `get_ip_network`,
`is_significant_ip_change`) -/

/-- `str.split('.')` on the character list of a string. -/
def splitOnDot : List Char → List (List Char)
  | [] => [[]]
  | c :: rest =>
    if c = '.' then [] :: splitOnDot rest
    else
      match splitOnDot rest with
      | [] => [[c]]
      | p :: ps => (c :: p) :: ps

def digitsToNat (cs : List Char) : Nat :=
  cs.foldl (fun n c => n * 10 + (c.toNat - '0'.toNat)) 0

/-- One dotted-quad component, as accepted by `ipaddress.IPv4Address`:
nonempty, at most 3 characters, all ASCII digits, no leading zero
(except `"0"` itself), value at most 255. -/
def parseOctet (cs : List Char) : Option Nat :=
  if cs ≠ [] ∧ cs.length ≤ 3 ∧ cs.all Char.isDigit ∧ (cs.length = 1 ∨ cs.head? ≠ some '0') then
    if digitsToNat cs ≤ 255 then some (digitsToNat cs) else none
  else none

/-- `ipaddress.IPv4Address(ip)`: `some` octets on success, `none` when the
constructor would raise `AddressValueError`. -/
def parseIPv4 (s : String) : Option (Nat × Nat × Nat × Nat) :=
  match (splitOnDot s.data).map parseOctet with
  | [some a, some b, some c, some d] => some (a, b, c, d)
  | _ => none

/-- Membership in the three configured private ranges
(`self.internal_ip_ranges`): 192.168.0.0/16, 10.0.0.0/8, 172.16.0.0/12. -/
def inInternalRanges (ip : Nat × Nat × Nat × Nat) : Bool :=
  decide ((ip.1 = 192 ∧ ip.2.1 = 168) ∨ ip.1 = 10 ∨ (ip.1 = 172 ∧ 16 ≤ ip.2.1 ∧ ip.2.1 ≤ 31))

/-- `is_internal_ip`: the `except` branch of the source returns `False`. -/
def is_internal_ip (ip : String) : Bool :=
  match parseIPv4 ip with
  | some q => inInternalRanges q
  | none => false

/-- `get_ip_network`: coarse bucket label; the `except` branch returns
`'unknown'`. -/
def get_ip_network (ip : String) : String :=
  match parseIPv4 ip with
  | none => "unknown"
  | some (a, b, _, _) =>
    if a = 192 ∧ b = 168 then "192.168.x.x"
    else if a = 10 then "10.x.x.x"
    else if a = 172 ∧ 16 ≤ b ∧ b ≤ 31 then "172.16-31.x.x"
    else toString a ++ "." ++ toString b ++ ".x.x"

/-- `is_significant_ip_change`: buckets differ.  (`get_ip_network` is total,
so the source's own `except: return False` branch is unreachable.) -/
def is_significant_ip_change (ip1 ip2 : String) : Bool :=
  get_ip_network ip1 ≠ get_ip_network ip2

/-! ## Findings -/

inductive Severity
  | low
  | medium
  | high
deriving Repr, DecidableEq

/-- The per-detector `details` dictionaries. -/
inductive Details where
  | bruteForce (attempt_count : Nat) (time_span_minutes : ℚ) (affected_users : List String)
  | suspiciousIp
  | externalIp
  | geoHop (from_ip to_ip : String) (time_diff_minutes : ℚ) (from_internal to_internal : Bool)
  | offHours (login_hour : Nat) (business_hours : String) (external_ip failed_attempt : Bool)
  | privEsc (failed_attempts_before_success : Nat)
  | exfil (download_count : Nat) (time_span_hours : ℚ) (download_times : List Nat)
deriving Repr, DecidableEq

structure Finding where
  timestamp : Nat
  user_id : String
  ip_address : String
  anomaly_type : String
  severity : Severity
  details : Details
deriving Repr, DecidableEq

/-! ## BruteForceDetector (`detect_brute_force_attempts`) -/

def eventsOfIp (events : List Event) (ip : String) : List Event :=
  events.filter (fun e => e.ip_address = ip)

def eventsOfUser (events : List Event) (u : String) : List Event :=
  events.filter (fun e => e.user_id = u)

/-- The anomaly dictionary appended for a qualifying brute-force run
`e0 :: rest`. -/
def bfFinding (o : List String → List String) (ip : String) (e0 : Event) (rest : List Event) :
    Finding :=
  { timestamp := e0.timestamp, user_id := e0.user_id, ip_address := ip,
    anomaly_type := "brute_force_attempt", severity := Severity.high,
    details := Details.bruteForce (e0 :: rest).length
      (mkRat ((lastOf e0 rest).timestamp - (e0.timestamp : Int)) 60)
      (o ((e0 :: rest).map Event.user_id)) }

/-- Evaluate one terminated run of consecutive `login_failed` events of one
IP: the `len(failed_attempts) >= 3` / span `<= timedelta(minutes=10)` check,
duplicated in the source at the action transition and at end-of-stream. -/
def bfCheck (o : List String → List String) (ip : String) : List Event → List Finding
  | [] => []
  | e0 :: rest =>
    if 3 ≤ (e0 :: rest).length then
      if ((lastOf e0 rest).timestamp : Int) - e0.timestamp ≤ 600 then
        [bfFinding o ip e0 rest]
      else []
    else []

/-- The maximal-run decomposition that `bfScan` walks: segments of
consecutive `login_failed` events, cut at every other action (possibly empty
segments at the cuts), with the still-open run flushed at end-of-stream. -/
def failRunsAux (run : List Event) : List Event → List (List Event)
  | [] => [run]
  | e :: es =>
    if e.action = "login_failed" then failRunsAux (run ++ [e]) es
    else run :: failRunsAux [] es

/-- The per-IP scan: accumulate consecutive failures, flush on any other
action, flush once more at end-of-stream. -/
def bfScan (o : List String → List String) (ip : String) (run : List Event) :
    List Event → List Finding
  | [] => bfCheck o ip run
  | e :: es =>
    if e.action = "login_failed" then bfScan o ip (run ++ [e]) es
    else bfCheck o ip run ++ bfScan o ip [] es

def detect_brute_force_attempts (o : List String → List String) (events : List Event) :
    List Finding :=
  (uniqueFirst (events.map Event.ip_address)).flatMap fun ip =>
    bfScan o ip [] (eventsOfIp events ip)

/-! ## SuspiciousIPDetector (`detect_suspicious_ips`) -/

def suspicious_ips : List String := ["8.8.8.8", "1.1.1.1", "208.67.222.222"]

/-- The `suspicious_ip` anomaly dictionary. -/
def suspFinding (e : Event) : Finding :=
  { timestamp := e.timestamp, user_id := e.user_id, ip_address := e.ip_address,
    anomaly_type := "suspicious_ip", severity := Severity.medium,
    details := Details.suspiciousIp }

/-- The `external_ip_access` anomaly dictionary. -/
def extIpFinding (e : Event) : Finding :=
  { timestamp := e.timestamp, user_id := e.user_id, ip_address := e.ip_address,
    anomaly_type := "external_ip_access", severity := Severity.medium,
    details := Details.externalIp }

/-- Body of the per-row loop of `detect_suspicious_ips`. -/
def suspStep (e : Event) : List Finding :=
  if e.ip_address ∈ suspicious_ips then [suspFinding e]
  else if ¬ is_internal_ip e.ip_address then
    if e.action = "login_success" ∨ e.action = "login_failed" then
      if hourOf e.timestamp < 8 ∨ 18 < hourOf e.timestamp then [extIpFinding e]
      else []
    else []
  else []

def detect_suspicious_ips (events : List Event) : List Finding :=
  events.flatMap suspStep

/-! ## GeoHopDetector (`detect_geo_hops`) -/

structure GeoCand where
  timestamp : Nat
  from_ip : String
  to_ip : String
  time_diff : Int
deriving Repr, DecidableEq

/-- Phase 1 of `detect_geo_hops`: the chronological scan that records
candidate hops (`ip_changes`) and updates `current_ip`/`current_time` on
every qualifying login event. -/
def geoCandidates (cur : Option (String × Nat)) : List Event → List GeoCand
  | [] => []
  | e :: es =>
    if e.action = "login_success" ∨ e.action = "login_failed" then
      match cur with
      | some (cip, ct) =>
        if e.ip_address ≠ cip ∧ is_significant_ip_change cip e.ip_address
            ∧ (e.timestamp : Int) - ct ≤ 7200 then
          { timestamp := e.timestamp, from_ip := cip, to_ip := e.ip_address,
            time_diff := (e.timestamp : Int) - ct }
            :: geoCandidates (some (e.ip_address, e.timestamp)) es
        else geoCandidates (some (e.ip_address, e.timestamp)) es
      | none => geoCandidates (some (e.ip_address, e.timestamp)) es
    else geoCandidates cur es

/-- The `geo_hop` anomaly dictionary for a flagged candidate. -/
def geoFinding (u : String) (c : GeoCand) : Finding :=
  { timestamp := c.timestamp, user_id := u, ip_address := c.to_ip,
    anomaly_type := "geo_hop", severity := Severity.high,
    details := Details.geoHop c.from_ip c.to_ip (mkRat c.time_diff 60)
      (is_internal_ip c.from_ip) (is_internal_ip c.to_ip) }

/-- Phase 2 of `detect_geo_hops`: flag a candidate only when the
internal/external classification flips and the hop took at most 30 minutes. -/
def geoFlag (u : String) (c : GeoCand) : List Finding :=
  if is_internal_ip c.from_ip ≠ is_internal_ip c.to_ip ∧ c.time_diff ≤ 1800 then
    [geoFinding u c]
  else []

/-- The candidate hop recorded when event `b` follows a qualifying login from
`(pip, pts)`. -/
def mkCand (pip : String) (pts : Nat) (b : Event) : GeoCand :=
  { timestamp := b.timestamp, from_ip := pip, to_ip := b.ip_address,
    time_diff := (b.timestamp : Int) - pts }

/-- The sub-sequence of qualifying login events the geo-hop scan actually
consumes. -/
def qualLogins (l : List Event) : List Event :=
  l.filter (fun e => e.action = "login_success" ∨ e.action = "login_failed")

def detect_geo_hops (events : List Event) : List Finding :=
  (uniqueFirst (events.map Event.user_id)).flatMap fun u =>
    (geoCandidates none (eventsOfUser events u)).flatMap (geoFlag u)

/-! ## OffHoursDetector (`detect_off_hours_activity`) -/

/-- The `off_hours_login` anomaly dictionary (severity `medium` for an
external address, else `low`). -/
def offHoursFinding (e : Event) : Finding :=
  { timestamp := e.timestamp, user_id := e.user_id, ip_address := e.ip_address,
    anomaly_type := "off_hours_login",
    severity := if ¬ is_internal_ip e.ip_address then Severity.medium else Severity.low,
    details := Details.offHours (hourOf e.timestamp) "8-18"
      (! is_internal_ip e.ip_address) (e.action == "login_failed") }

/-- Body of the per-row loop of `detect_off_hours_activity`
(business_hours = (8, 18)). -/
def offHoursStep (e : Event) : List Finding :=
  if e.action = "login_success" ∨ e.action = "login_failed" then
    if hourOf e.timestamp < 8 ∨ 18 < hourOf e.timestamp then
      if ¬ is_internal_ip e.ip_address ∨ e.action = "login_failed" then [offHoursFinding e]
      else []
    else []
  else []

def detect_off_hours_activity (events : List Event) : List Finding :=
  events.flatMap offHoursStep

/-! ## PrivilegeEscalationDetector (`detect_privilege_escalation`) -/

/-- The `privilege_escalation` anomaly dictionary. -/
def peFinding (user : String) (e : Event) (failed_count : Nat) : Finding :=
  { timestamp := e.timestamp, user_id := user, ip_address := e.ip_address,
    anomaly_type := "privilege_escalation", severity := Severity.high,
    details := Details.privEsc failed_count }

/-- The per-user scan with its `failed_count` accumulator, mirroring the
source's `if`/`elif` chain. -/
def peScan (user : String) (failed_count : Nat) : List Event → List Finding
  | [] => []
  | e :: es =>
    if e.action = "login_failed" then peScan user (failed_count + 1) es
    else if e.action = "login_success" ∧ 4 ≤ failed_count then
      peFinding user e failed_count :: peScan user 0 es
    else if e.action = "login_success" then peScan user 0 es
    else peScan user failed_count es

def detect_privilege_escalation (events : List Event) : List Finding :=
  (uniqueFirst (events.map Event.user_id)).flatMap fun u =>
    peScan u 0 (eventsOfUser events u)

/-- The bare `failed_count` state transition of `peScan`. -/
def peStep (failed_count : Nat) (e : Event) : Nat :=
  if e.action = "login_failed" then failed_count + 1
  else if e.action = "login_success" then 0
  else failed_count

/-- `failed_count` after scanning a list of events. -/
def peCount (failed_count : Nat) (l : List Event) : Nat := l.foldl peStep failed_count

/-! ## DataExfiltrationDetector (`detect_data_exfiltration`) -/

/-- The `data_exfiltration` anomaly dictionary for a qualifying download
sub-sequence `d0 :: rest`. -/
def exfilFinding (u : String) (d0 : Event) (rest : List Event) : Finding :=
  { timestamp := d0.timestamp, user_id := u, ip_address := d0.ip_address,
    anomaly_type := "data_exfiltration", severity := Severity.high,
    details := Details.exfil (d0 :: rest).length
      (mkRat ((lastOf d0 rest).timestamp - (d0.timestamp : Int)) 3600)
      ((d0 :: rest).map Event.timestamp) }

/-- The `len(downloads) >= 8` / span `<= timedelta(hours=1)` check on a
user's full chronological `download_file` sub-sequence. -/
def exfilCheck (u : String) : List Event → List Finding
  | [] => []
  | d0 :: rest =>
    if 8 ≤ (d0 :: rest).length then
      if ((lastOf d0 rest).timestamp : Int) - d0.timestamp ≤ 3600 then
        [exfilFinding u d0 rest]
      else []
    else []

def downloadsOf (events : List Event) (u : String) : List Event :=
  (eventsOfUser events u).filter (fun e => e.action = "download_file")

def detect_data_exfiltration (events : List Event) : List Finding :=
  (uniqueFirst (events.map Event.user_id)).flatMap fun u =>
    exfilCheck u (downloadsOf events u)

/-! ## Report Assembler (`run_analysis`, `generate_report`) -/

/-- `severity_order = {'high': 3, 'medium': 2, 'low': 1}` (the `.get`
default 0 is unreachable: every emitted severity is one of the three). -/
def severityRank : Severity → Nat
  | Severity.high => 3
  | Severity.medium => 2
  | Severity.low => 1

/-- The composite sort key `(severity_order.get(x['severity'], 0), x['timestamp'])`. -/
def sortKey (f : Finding) : Nat × Nat := (severityRank f.severity, f.timestamp)

/-- Lexicographic order on sort keys (Python tuple comparison). -/
def keyLe (a b : Nat × Nat) : Bool := decide (a.1 < b.1 ∨ (a.1 = b.1 ∧ a.2 ≤ b.2))

def insertDesc (x : Finding) : List Finding → List Finding
  | [] => [x]
  | y :: ys => if keyLe (sortKey y) (sortKey x) then x :: y :: ys else y :: insertDesc x ys

/-- `self.anomalies.sort(key=..., reverse=True)`.  Python's `list.sort` is
the stable sort; with `reverse=True` larger keys come first and equal-key
elements keep their original relative order (documented CPython behavior).
Any stable descending sort is extensionally that function; it is realized
here as a stable insertion sort. -/
def sortFindingsDesc : List Finding → List Finding
  | [] => []
  | x :: xs => insertDesc x (sortFindingsDesc xs)

/-- Concatenation of the six detectors' findings in the order `run_analysis`
invokes them (the shared `self.anomalies` accumulator before sorting). -/
def allAnomalies (o : List String → List String) (events : List Event) : List Finding :=
  detect_brute_force_attempts o events ++ detect_suspicious_ips events ++
    detect_geo_hops events ++ detect_off_hours_activity events ++
    detect_privilege_escalation events ++ detect_data_exfiltration events

/-- `run_analysis`: run every detector, then sort. -/
def run_analysis (o : List String → List String) (events : List Event) : List Finding :=
  sortFindingsDesc (allAnomalies o events)

/-- One step of `collections.Counter` insertion (dict preserving
first-occurrence order). -/
def counterAdd (acc : List (Severity × Nat)) (s : Severity) : List (Severity × Nat) :=
  if acc.any (fun p => p.1 = s) then acc.map (fun p => if p.1 = s then (p.1, p.2 + 1) else p)
  else acc ++ [(s, 1)]

/-- `dict(Counter(severities))` in first-occurrence order. -/
def counterFold (l : List Severity) : List (Severity × Nat) := l.foldl counterAdd []

/-- The report, minus `analysis_timestamp` (the claims fix the generation
timestamp, which is the one field read from the clock rather than from the
input). -/
structure Report where
  total_log_entries : Nat
  total_anomalies_found : Nat
  anomaly_types : List String
  severity_distribution : List (Severity × Nat)
  findings : List Finding
deriving Repr, DecidableEq

/-- `generate_report`, run after `run_analysis` as in `main`.
`anomaly_types` is `list(set(...))`, hence goes through the set-order
oracle. -/
def generate_report (o : List String → List String) (events : List Event) : Report :=
  { total_log_entries := events.length,
    total_anomalies_found := (run_analysis o events).length,
    anomaly_types := o ((run_analysis o events).map Finding.anomaly_type),
    severity_distribution := counterFold ((run_analysis o events).map Finding.severity),
    findings := run_analysis o events }

/-! ## Relations used to compare two runs of the pipeline -/

/-- Details agree up to the order of a `list(set(...))`-derived user list. -/
def DetailsMatch : Details → Details → Prop
  | Details.bruteForce c m us, Details.bruteForce c' m' us' => c = c' ∧ m = m' ∧ us.Perm us'
  | d, d' => d = d'

/-- Findings agree on every field, the brute-force `affected_users` order
excepted. -/
def FindingMatch (f g : Finding) : Prop :=
  f.timestamp = g.timestamp ∧ f.user_id = g.user_id ∧ f.ip_address = g.ip_address ∧
    f.anomaly_type = g.anomaly_type ∧ f.severity = g.severity ∧ DetailsMatch f.details g.details

/-! ## Concrete sample data -/

/-- A `login_success` from an external address at hour 19. -/
def sampleOffHours : Event :=
  { timestamp := 68400, user_id := "u2", ip_address := "203.0.113.9", action := "login_success" }

/-- Three `login_failed` events from one external IP, two distinct users,
4 minutes apart end to end (the spec's Scenario A shape). -/
def sampleBruteRun : List Event :=
  [{ timestamp := 1000, user_id := "alice", ip_address := "203.0.113.5", action := "login_failed" },
   { timestamp := 1120, user_id := "bob", ip_address := "203.0.113.5", action := "login_failed" },
   { timestamp := 1240, user_id := "alice", ip_address := "203.0.113.5", action := "login_failed" }]

/-- Scenario C input: four failed logins then one success, for one user. -/
def samplePrivEsc : List Event :=
  [{ timestamp := 0, user_id := "u4", ip_address := "10.0.0.9", action := "login_failed" },
   { timestamp := 10, user_id := "u4", ip_address := "10.0.0.9", action := "login_failed" },
   { timestamp := 20, user_id := "u4", ip_address := "10.0.0.9", action := "login_failed" },
   { timestamp := 30, user_id := "u4", ip_address := "10.0.0.9", action := "login_failed" },
   { timestamp := 40, user_id := "u4", ip_address := "10.0.0.9", action := "login_success" }]

/-- Scenario D input: eight downloads five minutes apart (35 minutes end to
end) by one user. -/
def sampleExfil : List Event :=
  (List.range 8).map fun i =>
    { timestamp := i * 300, user_id := "u5", ip_address := "10.0.0.9",
      action := "download_file" }

/-! # Lemmas -/

theorem mem_uniqueFirstAux {x : String} :
    ∀ (l seen : List String), x ∈ uniqueFirstAux seen l ↔ x ∈ l ∧ x ∉ seen := by
  intro l
  induction l with
  | nil => intro seen; simp [uniqueFirstAux]
  | cons y ys ih =>
    intro seen
    by_cases hy : y ∈ seen
    · rw [uniqueFirstAux, if_pos hy, ih]
      constructor
      · rintro ⟨h1, h2⟩; exact ⟨List.mem_cons_of_mem y h1, h2⟩
      · rintro ⟨h1, h2⟩
        rcases List.mem_cons.mp h1 with h | h
        · exact absurd (h ▸ hy) h2
        · exact ⟨h, h2⟩
    · rw [uniqueFirstAux, if_neg hy]
      simp only [List.mem_cons, ih]
      constructor
      · rintro (h | ⟨h1, h2⟩)
        · subst h; exact ⟨Or.inl rfl, hy⟩
        · push_neg at h2
          exact ⟨Or.inr h1, h2.2⟩
      · rintro ⟨h1, h2⟩
        by_cases hxy : x = y
        · exact Or.inl hxy
        · rcases h1 with h | h
          · exact absurd h hxy
          · refine Or.inr ⟨h, ?_⟩
            push_neg
            exact ⟨hxy, h2⟩

theorem mem_uniqueFirst {x : String} (l : List String) : x ∈ uniqueFirst l ↔ x ∈ l := by
  rw [uniqueFirst, mem_uniqueFirstAux]; simp

theorem nodup_uniqueFirstAux : ∀ (l seen : List String), (uniqueFirstAux seen l).Nodup := by
  intro l
  induction l with
  | nil => intro seen; simp [uniqueFirstAux]
  | cons y ys ih =>
    intro seen
    by_cases hy : y ∈ seen
    · rw [uniqueFirstAux, if_pos hy]; exact ih seen
    · rw [uniqueFirstAux, if_neg hy]
      refine List.Nodup.cons ?_ (ih (y :: seen))
      intro hmem
      exact (mem_uniqueFirstAux ys (y :: seen)).mp hmem |>.2 (List.mem_cons_self y seen)

theorem nodup_uniqueFirst (l : List String) : (uniqueFirst l).Nodup :=
  nodup_uniqueFirstAux l []

theorem countP_flatMap {α : Type} (p : Finding → Bool) (g : α → List Finding) :
    ∀ l : List α, ((l.flatMap g).countP p) = (l.map (fun x => (g x).countP p)).sum := by
  intro l
  induction l with
  | nil => simp
  | cons x xs ih => simp [List.countP_append, ih]

/-! ## SuspiciousIPDetector lemmas -/

theorem suspStep_mem_susp (e : Event) (f : Finding) (hf : f ∈ suspStep e)
    (ht : f.anomaly_type = "suspicious_ip") : e.ip_address ∈ suspicious_ips ∧ f = suspFinding e := by
  by_cases h1 : e.ip_address ∈ suspicious_ips <;>
    by_cases h3 : e.action = "login_success" ∨ e.action = "login_failed" <;>
    by_cases h4 : hourOf e.timestamp < 8 ∨ 18 < hourOf e.timestamp <;>
    simp_all [suspStep, extIpFinding]

theorem suspStep_mem_ext (e : Event) (f : Finding) (hf : f ∈ suspStep e)
    (ht : f.anomaly_type = "external_ip_access") :
    e.ip_address ∉ suspicious_ips ∧ is_internal_ip e.ip_address = false ∧
      (e.action = "login_success" ∨ e.action = "login_failed") ∧
      (hourOf e.timestamp < 8 ∨ 18 < hourOf e.timestamp) ∧ f = extIpFinding e := by
  by_cases h1 : e.ip_address ∈ suspicious_ips <;>
    by_cases h2 : is_internal_ip e.ip_address <;>
    by_cases h3 : e.action = "login_success" ∨ e.action = "login_failed" <;>
    by_cases h4 : hourOf e.timestamp < 8 ∨ 18 < hourOf e.timestamp <;>
    simp_all [suspStep, suspFinding]

/-- C5: per event, `detect_suspicious_ips` emits a medium `suspicious_ip`
finding exactly when the IP is in the fixed suspicious set, and a medium
`external_ip_access` finding exactly when the IP is outside that set, not
internal, the action is a login attempt, and the hour is `< 8` or `> 18`;
hours 8 and 18 never produce `external_ip_access`, nor does a
suspicious-set IP. -/
theorem C5_suspicious_ip_per_event (e : Event) (pre post : List Event) :
    detect_suspicious_ips (pre ++ e :: post) =
        detect_suspicious_ips pre ++ suspStep e ++ detect_suspicious_ips post ∧
    ((∃ f ∈ suspStep e, f.anomaly_type = "suspicious_ip" ∧ f.severity = Severity.medium) ↔
      e.ip_address ∈ suspicious_ips) ∧
    ((∃ f ∈ suspStep e, f.anomaly_type = "external_ip_access" ∧ f.severity = Severity.medium) ↔
      (e.ip_address ∉ suspicious_ips ∧ is_internal_ip e.ip_address = false ∧
        (e.action = "login_success" ∨ e.action = "login_failed") ∧
        (hourOf e.timestamp < 8 ∨ 18 < hourOf e.timestamp))) ∧
    (hourOf e.timestamp = 8 ∨ hourOf e.timestamp = 18 →
      ∀ f ∈ suspStep e, f.anomaly_type ≠ "external_ip_access") ∧
    (e.ip_address ∈ suspicious_ips → ∀ f ∈ suspStep e, f.anomaly_type ≠ "external_ip_access") := by
  refine ⟨?_, ?_, ?_, ?_, ?_⟩
  · simp [detect_suspicious_ips, List.flatMap_append]
  · constructor
    · rintro ⟨f, hf, ht, _⟩; exact (suspStep_mem_susp e f hf ht).1
    · intro h1
      exact ⟨suspFinding e, by simp [suspStep, h1], rfl, rfl⟩
  · constructor
    · rintro ⟨f, hf, ht, _⟩
      obtain ⟨a, b, c, d, _⟩ := suspStep_mem_ext e f hf ht
      exact ⟨a, b, c, d⟩
    · rintro ⟨h1, h2, h3, h4⟩
      refine ⟨extIpFinding e, ?_, rfl, rfl⟩
      simp [suspStep, h1, h2, h3, h4]
  · rintro h f hf hne
    obtain ⟨_, _, _, h4, _⟩ := suspStep_mem_ext e f hf hne
    rcases h with h | h <;> rcases h4 with h4 | h4 <;> omega
  · intro h1 f hf hne
    exact (suspStep_mem_ext e f hf hne).1 h1

/-- C5 witness: the sample off-hours external login yields an
`external_ip_access` finding and no `suspicious_ip` finding. -/
theorem C5_suspicious_ip_per_event_witness :
    (∃ f ∈ suspStep sampleOffHours,
      f.anomaly_type = "external_ip_access" ∧ f.severity = Severity.medium) ∧
    ¬ (∃ f ∈ suspStep sampleOffHours,
      f.anomaly_type = "suspicious_ip" ∧ f.severity = Severity.medium) := by
  have h := C5_suspicious_ip_per_event sampleOffHours [] []
  exact ⟨h.2.2.1.mpr (by decide), fun hc => by have := h.2.1.mp hc; revert this; decide⟩

/-! ## OffHoursDetector lemmas -/

theorem offHoursStep_mem (e : Event) (f : Finding) (hf : f ∈ offHoursStep e) :
    (e.action = "login_success" ∨ e.action = "login_failed") ∧
      (hourOf e.timestamp < 8 ∨ 18 < hourOf e.timestamp) ∧
      (is_internal_ip e.ip_address = false ∨ e.action = "login_failed") ∧
      f = offHoursFinding e := by
  by_cases h1 : e.action = "login_success" ∨ e.action = "login_failed" <;>
    by_cases h2 : hourOf e.timestamp < 8 ∨ 18 < hourOf e.timestamp <;>
    by_cases h3 : ¬ is_internal_ip e.ip_address ∨ e.action = "login_failed" <;>
    simp_all [offHoursStep]

/-- C6: per event, `detect_off_hours_activity` emits an `off_hours_login`
finding iff the action is a login attempt, the hour is `< 8` or `> 18`, and
the address is not internal or the attempt failed; severity is `medium` for
a non-internal address and `low` otherwise; any other action or an hour in
8..18 yields nothing. -/
theorem C6_off_hours_per_event (e : Event) (pre post : List Event) :
    detect_off_hours_activity (pre ++ e :: post) =
        detect_off_hours_activity pre ++ offHoursStep e ++ detect_off_hours_activity post ∧
    (offHoursStep e ≠ [] ↔
      ((e.action = "login_success" ∨ e.action = "login_failed") ∧
        (hourOf e.timestamp < 8 ∨ 18 < hourOf e.timestamp) ∧
        (is_internal_ip e.ip_address = false ∨ e.action = "login_failed"))) ∧
    (∀ f ∈ offHoursStep e, f.anomaly_type = "off_hours_login" ∧
      f.severity = (if is_internal_ip e.ip_address = false then Severity.medium
                    else Severity.low)) ∧
    (¬ (e.action = "login_success" ∨ e.action = "login_failed") → offHoursStep e = []) ∧
    (8 ≤ hourOf e.timestamp → hourOf e.timestamp ≤ 18 → offHoursStep e = []) := by
  refine ⟨?_, ?_, ?_, ?_, ?_⟩
  · simp [detect_off_hours_activity, List.flatMap_append]
  · constructor
    · intro hne
      match hstep : offHoursStep e with
      | [] => exact absurd hstep hne
      | f :: _ =>
        have := offHoursStep_mem e f (by rw [hstep]; exact List.mem_cons_self f _)
        exact ⟨this.1, this.2.1, this.2.2.1⟩
    · rintro ⟨h1, h2, h3⟩
      have h3' : ¬ is_internal_ip e.ip_address ∨ e.action = "login_failed" := by
        rcases h3 with h3 | h3
        · exact Or.inl (by simp [h3])
        · exact Or.inr h3
      rw [offHoursStep, if_pos h1, if_pos h2, if_pos h3']
      simp
  · intro f hf
    obtain ⟨_, _, _, hfe⟩ := offHoursStep_mem e f hf
    subst hfe
    constructor
    · rfl
    · by_cases hint : is_internal_ip e.ip_address <;> simp [offHoursFinding, hint]
  · intro h1; simp [offHoursStep, h1]
  · intro h1 h2
    have : ¬ (hourOf e.timestamp < 8 ∨ 18 < hourOf e.timestamp) := by omega
    simp [offHoursStep, this]

/-- C6 witness: the sample external hour-19 login yields a medium
`off_hours_login` finding; the same event at noon yields nothing. -/
theorem C6_off_hours_per_event_witness :
    offHoursStep sampleOffHours ≠ [] ∧
    (∀ f ∈ offHoursStep sampleOffHours, f.anomaly_type = "off_hours_login" ∧
      f.severity = (if is_internal_ip sampleOffHours.ip_address = false then Severity.medium
                    else Severity.low)) ∧
    offHoursStep { sampleOffHours with timestamp := 43200 } = [] := by
  have h := C6_off_hours_per_event sampleOffHours [] []
  have h' := C6_off_hours_per_event { sampleOffHours with timestamp := 43200 } [] []
  exact ⟨h.2.1.mpr (by decide), h.2.2.1, h'.2.2.2.2 (by decide) (by decide)⟩

/-! ## IP Classifier fail-open (C9) -/

/-- C9: classification and bucketing are total Lean functions; on any string
the `IPv4Address` constructor rejects, `is_internal_ip` is `False`,
`get_ip_network` is the sentinel `'unknown'`, and every detection decision
that consults the classification takes the external branch: during
off-hours such an event is flagged by the off-hours detector at severity
`medium` (the external branch) and by the suspicious-IP detector as
`external_ip_access`, never silently dropped. -/
theorem C9_invalid_ip_fail_open (s : String) (h : parseIPv4 s = none) :
    is_internal_ip s = false ∧ get_ip_network s = "unknown" ∧
    (∀ (t : Nat) (u a : String), (a = "login_success" ∨ a = "login_failed") →
      (hourOf t < 8 ∨ 18 < hourOf t) →
      offHoursStep { timestamp := t, user_id := u, ip_address := s, action := a } =
        [offHoursFinding { timestamp := t, user_id := u, ip_address := s, action := a }] ∧
      (offHoursFinding { timestamp := t, user_id := u, ip_address := s, action := a }).severity =
        Severity.medium) ∧
    (∀ (t : Nat) (u a : String), s ∉ suspicious_ips →
      (a = "login_success" ∨ a = "login_failed") → (hourOf t < 8 ∨ 18 < hourOf t) →
      suspStep { timestamp := t, user_id := u, ip_address := s, action := a } =
        [extIpFinding { timestamp := t, user_id := u, ip_address := s, action := a }]) := by
  have hint : is_internal_ip s = false := by rw [is_internal_ip, h]
  refine ⟨hint, by rw [get_ip_network, h], ?_, ?_⟩
  · intro t u a ha hh
    constructor
    · simp [offHoursStep, ha, hh, hint]
    · simp [offHoursFinding, hint]
  · intro t u a hs ha hh
    simp [suspStep, hs, ha, hh, hint]

/-- C9 witness: a malformed address (octet out of range) parses to `none`
and classifies fail-open. -/
theorem C9_invalid_ip_fail_open_witness :
    parseIPv4 "300.0.113.9" = none ∧ is_internal_ip "300.0.113.9" = false ∧
    get_ip_network "300.0.113.9" = "unknown" ∧
    suspStep { timestamp := 68400, user_id := "u9", ip_address := "300.0.113.9",
               action := "login_failed" } =
      [extIpFinding { timestamp := 68400, user_id := "u9", ip_address := "300.0.113.9",
                      action := "login_failed" }] := by
  have h := C9_invalid_ip_fail_open "300.0.113.9" (by decide)
  exact ⟨by decide, h.1, h.2.1, h.2.2.2 68400 "u9" "login_failed" (by decide) (by decide)
    (by decide)⟩

/-! ## PrivilegeEscalationDetector lemmas -/

theorem peCount_cons (c : Nat) (e : Event) (l : List Event) :
    peCount c (e :: l) = peCount (peStep c e) l := rfl

theorem peCount_append (c : Nat) (l₁ l₂ : List Event) :
    peCount c (l₁ ++ l₂) = peCount (peCount c l₁) l₂ := by
  simp [peCount, List.foldl_append]

theorem peScan_mem (u : String) (f : Finding) :
    ∀ (l : List Event) (c : Nat),
      f ∈ peScan u c l ↔ ∃ pre e post, l = pre ++ e :: post ∧ e.action = "login_success" ∧
        4 ≤ peCount c pre ∧ f = peFinding u e (peCount c pre) := by
  intro l
  induction l with
  | nil =>
    intro c
    simp [peScan]
  | cons e es ih =>
    intro c
    by_cases hfl : e.action = "login_failed"
    · have hns : ¬ (e.action = "login_success") := by rw [hfl]; decide
      rw [peScan, if_pos hfl]
      rw [ih (c + 1)]
      constructor
      · rintro ⟨pre, e', post, hsplit, hs, hc, hfe⟩
        refine ⟨e :: pre, e', post, by rw [hsplit]; rfl, hs, ?_, ?_⟩
        · rwa [peCount_cons, peStep, if_pos hfl]
        · rwa [peCount_cons, peStep, if_pos hfl]
      · rintro ⟨pre, e', post, hsplit, hs, hc, hfe⟩
        match pre, hsplit with
        | [], hsplit =>
          cases List.cons.injEq .. ▸ hsplit
          simp_all
        | e₀ :: pre', hsplit =>
          have h1 : e₀ = e := (List.cons.injEq .. ▸ hsplit).1.symm
          have h2 : es = pre' ++ e' :: post := (List.cons.injEq .. ▸ hsplit).2
          subst h1
          refine ⟨pre', e', post, h2, hs, ?_, ?_⟩
          · rwa [peCount_cons, peStep, if_pos hfl] at hc
          · rwa [peCount_cons, peStep, if_pos hfl] at hfe
    · by_cases hls : e.action = "login_success"
      · have hstep : peStep c e = 0 := by rw [peStep, if_neg hfl, if_pos hls]
        by_cases h4 : 4 ≤ c
        · rw [peScan, if_neg hfl, if_pos ⟨hls, h4⟩]
          rw [List.mem_cons, ih 0]
          constructor
          · rintro (hfe | ⟨pre, e', post, hsplit, hs, hc, hfe⟩)
            · exact ⟨[], e, es, rfl, hls, by simpa [peCount], by simpa [peCount]⟩
            · refine ⟨e :: pre, e', post, by rw [hsplit]; rfl, hs, ?_, ?_⟩
              · rwa [peCount_cons, hstep]
              · rwa [peCount_cons, hstep]
          · rintro ⟨pre, e', post, hsplit, hs, hc, hfe⟩
            match pre, hsplit with
            | [], hsplit =>
              have h1 : e' = e := (List.cons.injEq .. ▸ hsplit).1.symm
              subst h1
              exact Or.inl (by simpa [peCount] using hfe)
            | e₀ :: pre', hsplit =>
              have h1 : e₀ = e := (List.cons.injEq .. ▸ hsplit).1.symm
              have h2 : es = pre' ++ e' :: post := (List.cons.injEq .. ▸ hsplit).2
              subst h1
              refine Or.inr ⟨pre', e', post, h2, hs, ?_, ?_⟩
              · rwa [peCount_cons, hstep] at hc
              · rwa [peCount_cons, hstep] at hfe
        · rw [peScan, if_neg hfl, if_neg (by simp [hls, h4]), if_pos hls]
          rw [ih 0]
          constructor
          · rintro ⟨pre, e', post, hsplit, hs, hc, hfe⟩
            refine ⟨e :: pre, e', post, by rw [hsplit]; rfl, hs, ?_, ?_⟩
            · rwa [peCount_cons, hstep]
            · rwa [peCount_cons, hstep]
          · rintro ⟨pre, e', post, hsplit, hs, hc, hfe⟩
            match pre, hsplit with
            | [], hsplit =>
              have h1 : e' = e := (List.cons.injEq .. ▸ hsplit).1.symm
              subst h1
              simp [peCount] at hc
              omega
            | e₀ :: pre', hsplit =>
              have h1 : e₀ = e := (List.cons.injEq .. ▸ hsplit).1.symm
              have h2 : es = pre' ++ e' :: post := (List.cons.injEq .. ▸ hsplit).2
              subst h1
              refine ⟨pre', e', post, h2, hs, ?_, ?_⟩
              · rwa [peCount_cons, hstep] at hc
              · rwa [peCount_cons, hstep] at hfe
      · have hstep : peStep c e = c := by rw [peStep, if_neg hfl, if_neg hls]
        rw [peScan, if_neg hfl, if_neg (by simp [hls]), if_neg hls]
        rw [ih c]
        constructor
        · rintro ⟨pre, e', post, hsplit, hs, hc, hfe⟩
          refine ⟨e :: pre, e', post, by rw [hsplit]; rfl, hs, ?_, ?_⟩
          · rwa [peCount_cons, hstep]
          · rwa [peCount_cons, hstep]
        · rintro ⟨pre, e', post, hsplit, hs, hc, hfe⟩
          match pre, hsplit with
          | [], hsplit =>
            have h1 : e' = e := (List.cons.injEq .. ▸ hsplit).1.symm
            subst h1
            exact absurd hs hls
          | e₀ :: pre', hsplit =>
            have h1 : e₀ = e := (List.cons.injEq .. ▸ hsplit).1.symm
            have h2 : es = pre' ++ e' :: post := (List.cons.injEq .. ▸ hsplit).2
            subst h1
            refine ⟨pre', e', post, h2, hs, ?_, ?_⟩
            · rwa [peCount_cons, hstep] at hc
            · rwa [peCount_cons, hstep] at hfe

theorem peScan_user (u : String) (f : Finding) (l : List Event) (c : Nat)
    (hf : f ∈ peScan u c l) : f.user_id = u := by
  obtain ⟨pre, e, post, _, _, _, hfe⟩ := (peScan_mem u f l c).mp hf
  rw [hfe]; rfl

theorem detect_pe_mem (events : List Event) (u : String) (f : Finding) :
    (f ∈ detect_privilege_escalation events ∧ f.user_id = u) ↔
      f ∈ peScan u 0 (eventsOfUser events u) := by
  constructor
  · rintro ⟨hmem, huser⟩
    obtain ⟨u', hu', hscan⟩ := List.mem_flatMap.mp hmem
    have : u' = u := by rw [← peScan_user u' f _ 0 hscan, huser]
    exact this ▸ hscan
  · intro hscan
    obtain ⟨pre, e, post, hsplit, _⟩ := (peScan_mem u f _ 0).mp hscan
    have he : e ∈ eventsOfUser events u := by rw [hsplit]; simp
    have heu : e.user_id = u := by
      have := List.mem_filter.mp he
      simpa using this.2
    have hu : u ∈ uniqueFirst (events.map Event.user_id) := by
      rw [mem_uniqueFirst]
      exact List.mem_map.mpr ⟨e, (List.mem_filter.mp he).1, heu⟩
    exact ⟨List.mem_flatMap.mpr ⟨u, hu, hscan⟩, peScan_user u f _ 0 hscan⟩

theorem peScan_append (u : String) :
    ∀ (l ext : List Event) (c : Nat),
      peScan u c (l ++ ext) = peScan u c l ++ peScan u (peCount c l) ext := by
  intro l
  induction l with
  | nil => intro ext c; simp [peScan, peCount]
  | cons e es ih =>
    intro ext c
    by_cases hfl : e.action = "login_failed"
    · rw [List.cons_append, peScan, if_pos hfl, peScan, if_pos hfl, ih,
        peCount_cons, peStep, if_pos hfl]
    · by_cases hls : e.action = "login_success"
      · have hstep : peStep c e = 0 := by rw [peStep, if_neg hfl, if_pos hls]
        by_cases h4 : 4 ≤ c
        · rw [List.cons_append, peScan, if_neg hfl, if_pos ⟨hls, h4⟩, peScan, if_neg hfl,
            if_pos ⟨hls, h4⟩, ih, peCount_cons, hstep, List.cons_append]
        · rw [List.cons_append, peScan, if_neg hfl, if_neg (by simp [hls, h4]), if_pos hls,
            peScan, if_neg hfl, if_neg (by simp [hls, h4]), if_pos hls, ih,
            peCount_cons, hstep]
      · have hstep : peStep c e = c := by rw [peStep, if_neg hfl, if_neg hls]
        rw [List.cons_append, peScan, if_neg hfl, if_neg (by simp [hls]), if_neg hls,
          peScan, if_neg hfl, if_neg (by simp [hls]), if_neg hls, ih, peCount_cons, hstep]

/-- C7: per user, `detect_privilege_escalation` emits a finding exactly at a
`login_success` whose running failed-login counter (reset to 0 by every
success) is at least 4, with `failed_attempts_before_success` equal to that
counter; the counter zeroes on every success, and events appended after a
scanned segment never alter the findings already produced for it. -/
theorem C7_privilege_escalation (events : List Event) (u : String) (f : Finding) :
    ((f ∈ detect_privilege_escalation events ∧ f.user_id = u) ↔
      (∃ pre e post, eventsOfUser events u = pre ++ e :: post ∧
        e.action = "login_success" ∧ 4 ≤ peCount 0 pre ∧
        f = peFinding u e (peCount 0 pre))) ∧
    (∀ (c : Nat) (pre : List Event) (e : Event), e.action = "login_success" →
      peCount c (pre ++ [e]) = 0) ∧
    (∀ (c : Nat) (l ext : List Event),
      peScan u c (l ++ ext) = peScan u c l ++ peScan u (peCount c l) ext) := by
  refine ⟨?_, ?_, ?_⟩
  · rw [detect_pe_mem events u f, peScan_mem u f _ 0]
  · intro c pre e hs
    rw [peCount_append, peCount_cons, peStep, if_neg (by rw [hs]; decide), if_pos hs]
    rfl
  · intro c l ext
    exact peScan_append u l ext c

/-- C7 witness: on Scenario C the detector emits the finding with
`failed_attempts_before_success = 4`. -/
theorem C7_privilege_escalation_witness :
    peFinding "u4" { timestamp := 40, user_id := "u4", ip_address := "10.0.0.9",
                     action := "login_success" } 4 ∈
      detect_privilege_escalation samplePrivEsc := by
  refine ((C7_privilege_escalation samplePrivEsc "u4" _).1.mpr ?_).1
  exact ⟨samplePrivEsc.take 4,
    { timestamp := 40, user_id := "u4", ip_address := "10.0.0.9", action := "login_success" },
    [], by decide, by decide, by decide, by decide⟩

theorem peScan_retime (u : String) (g : Nat → Nat) :
    ∀ (l : List Event) (c : Nat),
      peScan u c (l.map (fun e => { e with timestamp := g e.timestamp })) =
        (peScan u c l).map (fun f => { f with timestamp := g f.timestamp }) := by
  intro l
  induction l with
  | nil => intro c; simp [peScan]
  | cons e es ih =>
    intro c
    by_cases hfl : e.action = "login_failed"
    · have hfl' : ({ e with timestamp := g e.timestamp } : Event).action = "login_failed" := hfl
      rw [List.map_cons, peScan, if_pos hfl', peScan, if_pos hfl, ih]
    · have hfl' : ¬ ({ e with timestamp := g e.timestamp } : Event).action = "login_failed" := hfl
      by_cases hls : e.action = "login_success"
      · have hls' : ({ e with timestamp := g e.timestamp } : Event).action = "login_success" := hls
        by_cases h4 : 4 ≤ c
        · rw [List.map_cons, peScan, if_neg hfl', if_pos ⟨hls', h4⟩,
            peScan, if_neg hfl, if_pos ⟨hls, h4⟩, ih, List.map_cons]
          rfl
        · rw [List.map_cons, peScan, if_neg hfl', if_neg (fun h => h4 h.2), if_pos hls',
            peScan, if_neg hfl, if_neg (fun h => h4 h.2), if_pos hls, ih]
      · have hls' : ¬ ({ e with timestamp := g e.timestamp } : Event).action = "login_success" :=
          hls
        rw [List.map_cons, peScan, if_neg hfl', if_neg (fun h => hls' h.1), if_neg hls',
          peScan, if_neg hfl, if_neg (fun h => hls h.1), if_neg hls, ih]

/-- C10: the failed-login counter moves only on `login_failed` (increment)
and `login_success` (reset); any other action leaves both the counter and
the scan output untouched; the scan is invariant under arbitrary
re-timestamping (no time window); and a success preceded by a counter of at
least 4 emits no matter how the preceding failures are spread out or
interleaved with non-login events. -/
theorem C10_pe_counter_ignores_time (u : String) :
    (∀ (c : Nat) (e : Event), e.action ≠ "login_failed" → e.action ≠ "login_success" →
      peStep c e = c) ∧
    (∀ (c : Nat) (e : Event) (es : List Event), e.action ≠ "login_failed" →
      e.action ≠ "login_success" → peScan u c (e :: es) = peScan u c es) ∧
    (∀ (g : Nat → Nat) (c : Nat) (l : List Event),
      peScan u c (l.map (fun e => { e with timestamp := g e.timestamp })) =
        (peScan u c l).map (fun f => { f with timestamp := g f.timestamp })) ∧
    (∀ (pre : List Event) (e : Event) (post : List Event), e.action = "login_success" →
      4 ≤ peCount 0 pre →
      peFinding u e (peCount 0 pre) ∈ peScan u 0 (pre ++ e :: post)) := by
  refine ⟨?_, ?_, ?_, ?_⟩
  · intro c e h1 h2
    rw [peStep, if_neg h1, if_neg h2]
  · intro c e es h1 h2
    rw [peScan, if_neg h1, if_neg (fun h => h2 h.1), if_neg h2]
  · intro g c l
    exact peScan_retime u g l c
  · intro pre e post hs h4
    exact (peScan_mem u (peFinding u e (peCount 0 pre)) (pre ++ e :: post) 0).mpr
      ⟨pre, e, post, rfl, hs, h4, rfl⟩

/-- C10 witness: four failures spread over more than a year and interleaved
with a download still trigger on the next success. -/
theorem C10_pe_counter_ignores_time_witness :
    peFinding "u7" { timestamp := 40000000, user_id := "u7", ip_address := "10.0.0.9",
                     action := "login_success" } 4 ∈
      peScan "u7" 0
        ([{ timestamp := 0, user_id := "u7", ip_address := "10.0.0.9", action := "login_failed" },
          { timestamp := 10000000, user_id := "u7", ip_address := "10.0.0.9",
            action := "login_failed" },
          { timestamp := 15000000, user_id := "u7", ip_address := "10.0.0.9",
            action := "download_file" },
          { timestamp := 20000000, user_id := "u7", ip_address := "10.0.0.9",
            action := "login_failed" },
          { timestamp := 30000000, user_id := "u7", ip_address := "10.0.0.9",
            action := "login_failed" }] ++
          { timestamp := 40000000, user_id := "u7", ip_address := "10.0.0.9",
            action := "login_success" } :: []) := by
  have h := (C10_pe_counter_ignores_time "u7").2.2.2
  have h4 : 4 ≤ peCount 0
      [{ timestamp := 0, user_id := "u7", ip_address := "10.0.0.9", action := "login_failed" },
       { timestamp := 10000000, user_id := "u7", ip_address := "10.0.0.9",
         action := "login_failed" },
       { timestamp := 15000000, user_id := "u7", ip_address := "10.0.0.9",
         action := "download_file" },
       { timestamp := 20000000, user_id := "u7", ip_address := "10.0.0.9",
         action := "login_failed" },
       { timestamp := 30000000, user_id := "u7", ip_address := "10.0.0.9",
         action := "login_failed" }] := by decide
  have := h _
    { timestamp := 40000000, user_id := "u7", ip_address := "10.0.0.9",
      action := "login_success" } [] (by decide) h4
  simpa using this

/-! ## DataExfiltrationDetector lemmas -/

theorem exfilCheck_mem (u : String) (dls : List Event) (f : Finding) :
    f ∈ exfilCheck u dls ↔ ∃ d0 rest, dls = d0 :: rest ∧ 8 ≤ (d0 :: rest).length ∧
      ((lastOf d0 rest).timestamp : Int) - d0.timestamp ≤ 3600 ∧ f = exfilFinding u d0 rest := by
  match dls with
  | [] => simp [exfilCheck]
  | d0 :: rest =>
    rw [exfilCheck]
    by_cases h8 : 8 ≤ (d0 :: rest).length
    · rw [if_pos h8]
      by_cases hsp : ((lastOf d0 rest).timestamp : Int) - d0.timestamp ≤ 3600
      · rw [if_pos hsp]
        constructor
        · intro hf
          exact ⟨d0, rest, rfl, h8, hsp, by simpa using hf⟩
        · rintro ⟨d0', rest', heq, _, _, hfe⟩
          injection heq with h1 h2
          subst h1; subst h2
          simp [hfe]
      · rw [if_neg hsp]
        simp only [List.not_mem_nil, false_iff]
        rintro ⟨d0', rest', heq, _, hsp', _⟩
        injection heq with h1 h2
        subst h1; subst h2
        exact hsp hsp'
    · rw [if_neg h8]
      simp only [List.not_mem_nil, false_iff]
      rintro ⟨d0', rest', heq, h8', _, _⟩
      injection heq with h1 h2
      subst h1; subst h2
      exact h8 h8'

theorem exfilCheck_length (u : String) (dls : List Event) :
    (exfilCheck u dls).length ≤ 1 := by
  match dls with
  | [] => simp [exfilCheck]
  | d0 :: rest =>
    rw [exfilCheck]
    split <;> [skip; simp]
    split <;> simp

theorem detect_exfil_mem (events : List Event) (u : String) (f : Finding) :
    (f ∈ detect_data_exfiltration events ∧ f.user_id = u) ↔
      f ∈ exfilCheck u (downloadsOf events u) := by
  constructor
  · rintro ⟨hmem, huser⟩
    obtain ⟨u', hu', hchk⟩ := List.mem_flatMap.mp hmem
    obtain ⟨d0, rest, _, _, _, hfe⟩ := (exfilCheck_mem u' _ f).mp hchk
    have : u' = u := by rw [← huser, hfe]; rfl
    exact this ▸ hchk
  · intro hchk
    obtain ⟨d0, rest, hsplit, _, _, hfe⟩ := (exfilCheck_mem u _ f).mp hchk
    have hd0 : d0 ∈ downloadsOf events u := by rw [hsplit]; simp
    have hd0u : d0 ∈ eventsOfUser events u := (List.mem_filter.mp hd0).1
    have heu : d0.user_id = u := by simpa using (List.mem_filter.mp hd0u).2
    have hu : u ∈ uniqueFirst (events.map Event.user_id) := by
      rw [mem_uniqueFirst]
      exact List.mem_map.mpr ⟨d0, (List.mem_filter.mp hd0u).1, heu⟩
    exact ⟨List.mem_flatMap.mpr ⟨u, hu, hchk⟩, by rw [hfe]; rfl⟩

theorem sum_le_one_of_single (h : String → Nat) (u : String) :
    ∀ l : List String, l.Nodup → (∀ x ∈ l, x ≠ u → h x = 0) → h u ≤ 1 →
      (l.map h).sum ≤ 1 := by
  intro l
  induction l with
  | nil => intro _ _ _; simp
  | cons x xs ih =>
    intro hnd hz hu
    rw [List.map_cons, List.sum_cons]
    by_cases hxu : x = u
    · subst hxu
      have : (xs.map h).sum = 0 := by
        apply List.sum_eq_zero
        intro y hy
        obtain ⟨z, hz', hzy⟩ := List.mem_map.mp hy
        have : z ≠ x := fun hzx => (List.nodup_cons.mp hnd).1 (hzx ▸ hz')
        rw [← hzy, hz z (List.mem_cons_of_mem x hz') this]
      omega
    · rw [hz x (List.mem_cons_self x xs) hxu]
      simpa using ih (List.nodup_cons.mp hnd).2
        (fun y hy => hz y (List.mem_cons_of_mem x hy)) hu

/-- C8: per user, `detect_data_exfiltration` emits a high `data_exfiltration`
finding iff the user's full chronological `download_file` sub-sequence has
at least 8 elements and spans at most one hour; the finding
(`exfilFinding`) sits at the first download's timestamp and IP and carries
the download count, the span in hours, and all download timestamps; at most
one such finding exists per user. -/
theorem C8_data_exfiltration (events : List Event) (u : String) :
    (∀ f : Finding, (f ∈ detect_data_exfiltration events ∧ f.user_id = u) ↔
      (∃ d0 rest, downloadsOf events u = d0 :: rest ∧ 8 ≤ (d0 :: rest).length ∧
        ((lastOf d0 rest).timestamp : Int) - d0.timestamp ≤ 3600 ∧
        f = exfilFinding u d0 rest)) ∧
    (detect_data_exfiltration events).countP (fun f => f.user_id == u) ≤ 1 := by
  constructor
  · intro f
    rw [detect_exfil_mem events u f, exfilCheck_mem]
  · rw [detect_data_exfiltration, countP_flatMap]
    apply sum_le_one_of_single _ u _ (nodup_uniqueFirst _)
    · intro x hx hxu
      apply List.countP_eq_zero.mpr
      intro f hf
      obtain ⟨d0, rest, _, _, _, hfe⟩ := (exfilCheck_mem x _ f).mp hf
      have : f.user_id = x := by rw [hfe]; rfl
      simp [this, hxu]
    · calc (exfilCheck u (downloadsOf events u)).countP (fun f => f.user_id == u) ≤
          (exfilCheck u (downloadsOf events u)).length := List.countP_le_length _
        _ ≤ 1 := exfilCheck_length u _

/-- C8 witness: Scenario D (8 downloads, 35-minute span) emits; dropping one
download (7 in the same window) does not. -/
theorem C8_data_exfiltration_witness :
    (∃ f : Finding, f ∈ detect_data_exfiltration sampleExfil ∧ f.user_id = "u5") ∧
    ¬ (∃ f : Finding, f ∈ detect_data_exfiltration (sampleExfil.take 7) ∧ f.user_id = "u5") := by
  constructor
  · obtain ⟨d0, rest, hsplit⟩ :
        ∃ d0 rest, downloadsOf sampleExfil "u5" = d0 :: rest ∧ 8 ≤ (d0 :: rest).length ∧
          ((lastOf d0 rest).timestamp : Int) - d0.timestamp ≤ 3600 := by
      refine ⟨{ timestamp := 0, user_id := "u5", ip_address := "10.0.0.9",
                action := "download_file" },
        (List.range 7).map (fun i =>
          { timestamp := (i + 1) * 300, user_id := "u5", ip_address := "10.0.0.9",
            action := "download_file" }), by decide, by decide, by decide⟩
    exact ⟨exfilFinding "u5" d0 rest,
      ((C8_data_exfiltration sampleExfil "u5").1 _).mpr
        ⟨d0, rest, hsplit.1, hsplit.2.1, hsplit.2.2, rfl⟩⟩
  · rintro ⟨f, hf⟩
    obtain ⟨d0, rest, hsplit, h8, _, _⟩ :=
      ((C8_data_exfiltration (sampleExfil.take 7) "u5").1 f).mp hf
    have h7 : (downloadsOf (sampleExfil.take 7) "u5").length = 7 := by decide
    rw [hsplit] at h7
    simp at h7 h8
    omega

/-! ## Report Assembler sort lemmas -/

theorem keyLe_trans {a b c : Nat × Nat} (h1 : keyLe a b = true) (h2 : keyLe b c = true) :
    keyLe a c = true := by
  simp only [keyLe, decide_eq_true_eq] at *
  omega

theorem keyLe_of_not_keyLe {a b : Nat × Nat} (h : ¬ keyLe a b = true) : keyLe b a = true := by
  simp only [keyLe, decide_eq_true_eq] at *
  omega

theorem ne_of_not_keyLe {a b : Nat × Nat} (h : ¬ keyLe a b = true) : a ≠ b := by
  simp only [keyLe, decide_eq_true_eq] at h
  intro he
  subst he
  omega

theorem insertDesc_perm (x : Finding) :
    ∀ l : List Finding, (insertDesc x l).Perm (x :: l) := by
  intro l
  induction l with
  | nil => exact List.Perm.refl _
  | cons y ys ih =>
    rw [insertDesc]
    split
    · exact List.Perm.refl _
    · exact (ih.cons y).trans (List.Perm.swap x y ys)

theorem sortFindingsDesc_perm : ∀ l : List Finding, (sortFindingsDesc l).Perm l := by
  intro l
  induction l with
  | nil => exact List.Perm.refl _
  | cons x xs ih => exact (insertDesc_perm x _).trans (ih.cons x)

theorem insertDesc_sorted (x : Finding) :
    ∀ l : List Finding, l.Pairwise (fun a b => keyLe (sortKey b) (sortKey a) = true) →
      (insertDesc x l).Pairwise (fun a b => keyLe (sortKey b) (sortKey a) = true) := by
  intro l
  induction l with
  | nil => intro _; simp [insertDesc]
  | cons y ys ih =>
    intro h
    obtain ⟨hy, hys⟩ := List.pairwise_cons.mp h
    rw [insertDesc]
    by_cases hc : keyLe (sortKey y) (sortKey x) = true
    · rw [if_pos hc]
      refine List.pairwise_cons.mpr ⟨?_, h⟩
      intro z hz
      rcases List.mem_cons.mp hz with hz | hz
      · exact hz ▸ hc
      · exact keyLe_trans (hy z hz) hc
    · rw [if_neg hc]
      refine List.pairwise_cons.mpr ⟨?_, ih hys⟩
      intro z hz
      rcases List.mem_cons.mp ((insertDesc_perm x ys).mem_iff.mp hz) with hz | hz
      · exact hz ▸ keyLe_of_not_keyLe hc
      · exact hy z hz

theorem sortFindingsDesc_sorted :
    ∀ l : List Finding,
      (sortFindingsDesc l).Pairwise (fun a b => keyLe (sortKey b) (sortKey a) = true) := by
  intro l
  induction l with
  | nil => simp [sortFindingsDesc]
  | cons x xs ih => exact insertDesc_sorted x _ ih

theorem filter_insertDesc (x : Finding) (k : Nat × Nat) :
    ∀ l : List Finding,
      (insertDesc x l).filter (fun f => decide (sortKey f = k)) =
        (x :: l).filter (fun f => decide (sortKey f = k)) := by
  intro l
  induction l with
  | nil => rfl
  | cons y ys ih =>
    rw [insertDesc]
    by_cases hc : keyLe (sortKey y) (sortKey x) = true
    · rw [if_pos hc]
    · rw [if_neg hc]
      have hne : sortKey y ≠ sortKey x := ne_of_not_keyLe hc
      by_cases hx : sortKey x = k
      · have hyk : ¬ sortKey y = k := fun hyk => hne (hyk.trans hx.symm)
        simp [List.filter_cons, hx, hyk, ih]
      · by_cases hy : sortKey y = k <;>
          simp [List.filter_cons, hx, hy, ih]

theorem filter_sortFindingsDesc (k : Nat × Nat) :
    ∀ l : List Finding,
      (sortFindingsDesc l).filter (fun f => decide (sortKey f = k)) =
        l.filter (fun f => decide (sortKey f = k)) := by
  intro l
  induction l with
  | nil => rfl
  | cons x xs ih =>
    rw [sortFindingsDesc, filter_insertDesc, List.filter_cons, List.filter_cons, ih]

/-- C2 counterexample: one external hour-19 login yields two findings with
identical sort keys, emitted as `external_ip_access` (SuspiciousIPDetector)
then `off_hours_login` (OffHoursDetector); after sorting, the final list
keeps that emission order, so the later-emitted tie does NOT surface
first. -/
theorem C2_tie_not_reversed_counterexample :
    allAnomalies setOrderA [sampleOffHours] =
      [extIpFinding sampleOffHours, offHoursFinding sampleOffHours] ∧
    sortKey (extIpFinding sampleOffHours) = sortKey (offHoursFinding sampleOffHours) ∧
    extIpFinding sampleOffHours ≠ offHoursFinding sampleOffHours ∧
    run_analysis setOrderA [sampleOffHours] =
      [extIpFinding sampleOffHours, offHoursFinding sampleOffHours] := by
  exact ⟨by decide, by decide, by decide, by decide⟩

/-- C2 (amended): the sorted findings list is a permutation of the
concatenated detector output, ordered by severity rank descending then
timestamp descending, and findings with identical (severity, timestamp)
keys retain their relative detector-emission order - the earlier-emitted
tie stays first (Python's `list.sort` is stable and `reverse=True` does not
reverse equal-key elements). -/
theorem C2_sort_stable_descending (o : List String → List String) (events : List Event) :
    run_analysis o events = sortFindingsDesc (allAnomalies o events) ∧
    (run_analysis o events).Perm (allAnomalies o events) ∧
    (run_analysis o events).Pairwise (fun a b => keyLe (sortKey b) (sortKey a) = true) ∧
    (∀ k : Nat × Nat,
      (run_analysis o events).filter (fun f => decide (sortKey f = k)) =
        (allAnomalies o events).filter (fun f => decide (sortKey f = k))) := by
  refine ⟨rfl, sortFindingsDesc_perm _, sortFindingsDesc_sorted _, fun k => ?_⟩
  exact filter_sortFindingsDesc k _

/-! ## GeoHopDetector lemmas -/

theorem geoFlag_mem (u : String) (c : GeoCand) (f : Finding) :
    f ∈ geoFlag u c ↔ (is_internal_ip c.from_ip ≠ is_internal_ip c.to_ip ∧
      c.time_diff ≤ 1800 ∧ f = geoFinding u c) := by
  rw [geoFlag]
  by_cases h : is_internal_ip c.from_ip ≠ is_internal_ip c.to_ip ∧ c.time_diff ≤ 1800
  · rw [if_pos h]
    simp [h.1, h.2]
  · rw [if_neg h]
    simp only [List.not_mem_nil, false_iff]
    rintro ⟨h1, h2, _⟩
    exact h ⟨h1, h2⟩

theorem geoCandidates_some_mem (c : GeoCand) :
    ∀ (l : List Event) (pip : String) (pts : Nat),
      c ∈ geoCandidates (some (pip, pts)) l ↔
        ((∃ b rest, qualLogins l = b :: rest ∧ b.ip_address ≠ pip ∧
            is_significant_ip_change pip b.ip_address = true ∧
            (b.timestamp : Int) - pts ≤ 7200 ∧ c = mkCand pip pts b) ∨
          (∃ pre a b post, qualLogins l = pre ++ a :: b :: post ∧
            b.ip_address ≠ a.ip_address ∧
            is_significant_ip_change a.ip_address b.ip_address = true ∧
            (b.timestamp : Int) - a.timestamp ≤ 7200 ∧
            c = mkCand a.ip_address a.timestamp b)) := by
  intro l
  induction l with
  | nil =>
    intro pip pts
    simp [geoCandidates, qualLogins]
  | cons e es ih =>
    intro pip pts
    by_cases hq : e.action = "login_success" ∨ e.action = "login_failed"
    · have hfq : qualLogins (e :: es) = e :: qualLogins es := by
        simp [qualLogins, List.filter_cons, hq]
      rw [geoCandidates, if_pos hq]
      by_cases hcond : e.ip_address ≠ pip ∧ is_significant_ip_change pip e.ip_address
          ∧ (e.timestamp : Int) - pts ≤ 7200
      · rw [if_pos hcond, List.mem_cons, ih e.ip_address e.timestamp]
        constructor
        · rintro (hfe | ⟨b, rest, hsplit, hb1, hb2, hb3, hfe⟩ |
            ⟨pre, a, b, post, hsplit, hb1, hb2, hb3, hfe⟩)
          · exact Or.inl ⟨e, qualLogins es, hfq, hcond.1, hcond.2.1, hcond.2.2, hfe⟩
          · exact Or.inr ⟨[], e, b, rest, by rw [hfq, hsplit]; rfl, hb1, hb2, hb3, hfe⟩
          · exact Or.inr ⟨e :: pre, a, b, post, by rw [hfq, hsplit]; rfl, hb1, hb2, hb3, hfe⟩
        · rintro (⟨b, rest, hsplit, hb1, hb2, hb3, hfe⟩ |
            ⟨pre, a, b, post, hsplit, hb1, hb2, hb3, hfe⟩)
          · rw [hfq] at hsplit
            injection hsplit with h1 h2
            subst h1
            exact Or.inl hfe
          · rw [hfq] at hsplit
            match pre, hsplit with
            | [], hsplit =>
              have h1 : a = e := (List.cons.injEq .. ▸ hsplit).1.symm
              have h2 : qualLogins es = b :: post := (List.cons.injEq .. ▸ hsplit).2
              subst h1
              exact Or.inr (Or.inl ⟨b, post, h2, hb1, hb2, hb3, hfe⟩)
            | e₀ :: pre', hsplit =>
              have h1 : e₀ = e := (List.cons.injEq .. ▸ hsplit).1.symm
              have h2 : qualLogins es = pre' ++ a :: b :: post :=
                (List.cons.injEq .. ▸ hsplit).2
              exact Or.inr (Or.inr ⟨pre', a, b, post, h2, hb1, hb2, hb3, hfe⟩)
      · rw [if_neg hcond, ih e.ip_address e.timestamp]
        constructor
        · rintro (⟨b, rest, hsplit, hb1, hb2, hb3, hfe⟩ |
            ⟨pre, a, b, post, hsplit, hb1, hb2, hb3, hfe⟩)
          · exact Or.inr ⟨[], e, b, rest, by rw [hfq, hsplit]; rfl, hb1, hb2, hb3, hfe⟩
          · exact Or.inr ⟨e :: pre, a, b, post, by rw [hfq, hsplit]; rfl, hb1, hb2, hb3, hfe⟩
        · rintro (⟨b, rest, hsplit, hb1, hb2, hb3, hfe⟩ |
            ⟨pre, a, b, post, hsplit, hb1, hb2, hb3, hfe⟩)
          · rw [hfq] at hsplit
            injection hsplit with h1 h2
            subst h1
            exact absurd ⟨hb1, hb2, hb3⟩ hcond
          · rw [hfq] at hsplit
            match pre, hsplit with
            | [], hsplit =>
              have h1 : a = e := (List.cons.injEq .. ▸ hsplit).1.symm
              have h2 : qualLogins es = b :: post := (List.cons.injEq .. ▸ hsplit).2
              subst h1
              exact Or.inl ⟨b, post, h2, hb1, hb2, hb3, hfe⟩
            | e₀ :: pre', hsplit =>
              have h1 : e₀ = e := (List.cons.injEq .. ▸ hsplit).1.symm
              have h2 : qualLogins es = pre' ++ a :: b :: post :=
                (List.cons.injEq .. ▸ hsplit).2
              exact Or.inr ⟨pre', a, b, post, h2, hb1, hb2, hb3, hfe⟩
    · have hfq : qualLogins (e :: es) = qualLogins es := by
        simp [qualLogins, List.filter_cons, hq]
      rw [geoCandidates, if_neg hq, hfq]
      exact ih pip pts

theorem geoCandidates_none_mem (c : GeoCand) :
    ∀ l : List Event,
      c ∈ geoCandidates none l ↔
        ∃ pre a b post, qualLogins l = pre ++ a :: b :: post ∧
          b.ip_address ≠ a.ip_address ∧
          is_significant_ip_change a.ip_address b.ip_address = true ∧
          (b.timestamp : Int) - a.timestamp ≤ 7200 ∧
          c = mkCand a.ip_address a.timestamp b := by
  intro l
  induction l with
  | nil => simp [geoCandidates, qualLogins]
  | cons e es ih =>
    by_cases hq : e.action = "login_success" ∨ e.action = "login_failed"
    · have hfq : qualLogins (e :: es) = e :: qualLogins es := by
        simp [qualLogins, List.filter_cons, hq]
      rw [geoCandidates, if_pos hq, geoCandidates_some_mem c es e.ip_address e.timestamp]
      constructor
      · rintro (⟨b, rest, hsplit, hb1, hb2, hb3, hfe⟩ |
          ⟨pre, a, b, post, hsplit, hb1, hb2, hb3, hfe⟩)
        · exact ⟨[], e, b, rest, by rw [hfq, hsplit]; rfl, hb1, hb2, hb3, hfe⟩
        · exact ⟨e :: pre, a, b, post, by rw [hfq, hsplit]; rfl, hb1, hb2, hb3, hfe⟩
      · rintro ⟨pre, a, b, post, hsplit, hb1, hb2, hb3, hfe⟩
        rw [hfq] at hsplit
        match pre, hsplit with
        | [], hsplit =>
          have h1 : a = e := (List.cons.injEq .. ▸ hsplit).1.symm
          have h2 : qualLogins es = b :: post := (List.cons.injEq .. ▸ hsplit).2
          subst h1
          exact Or.inl ⟨b, post, h2, hb1, hb2, hb3, hfe⟩
        | e₀ :: pre', hsplit =>
          have h2 : qualLogins es = pre' ++ a :: b :: post := (List.cons.injEq .. ▸ hsplit).2
          exact Or.inr ⟨pre', a, b, post, h2, hb1, hb2, hb3, hfe⟩
    · have hfq : qualLogins (e :: es) = qualLogins es := by
        simp [qualLogins, List.filter_cons, hq]
      rw [geoCandidates, if_neg hq, hfq]
      exact ih

theorem detect_geo_mem (events : List Event) (u : String) (f : Finding) :
    (f ∈ detect_geo_hops events ∧ f.user_id = u) ↔
      ∃ c, c ∈ geoCandidates none (eventsOfUser events u) ∧ f ∈ geoFlag u c := by
  constructor
  · rintro ⟨hmem, huser⟩
    obtain ⟨u', hu', hin⟩ := List.mem_flatMap.mp hmem
    obtain ⟨c, hc, hf⟩ := List.mem_flatMap.mp hin
    have hfu : f.user_id = u' := by
      obtain ⟨_, _, hfe⟩ := (geoFlag_mem u' c f).mp hf
      rw [hfe]; rfl
    have h : u' = u := by rw [← huser, hfu]
    subst h
    exact ⟨c, hc, hf⟩
  · rintro ⟨c, hc, hf⟩
    obtain ⟨_, _, hfe⟩ := (geoFlag_mem u c f).mp hf
    obtain ⟨pre, a, b, post, hsplit, _⟩ := (geoCandidates_none_mem c _).mp hc
    have ha : a ∈ qualLogins (eventsOfUser events u) := by rw [hsplit]; simp
    have ha2 : a ∈ eventsOfUser events u := (List.mem_filter.mp ha).1
    have hau : a.user_id = u := by simpa using (List.mem_filter.mp ha2).2
    have hu : u ∈ uniqueFirst (events.map Event.user_id) :=
      (mem_uniqueFirst _).mpr (List.mem_map.mpr ⟨a, (List.mem_filter.mp ha2).1, hau⟩)
    exact ⟨List.mem_flatMap.mpr ⟨u, hu, List.mem_flatMap.mpr ⟨c, hc, hf⟩⟩, by rw [hfe]; rfl⟩

theorem signif_iff (a b : String) :
    is_significant_ip_change a b = true ↔ get_ip_network a ≠ get_ip_network b := by
  simp [is_significant_ip_change]

/-- C3: per user, `detect_geo_hops` emits a high `geo_hop` finding exactly
for adjacent pairs of qualifying login events whose raw IPs differ, whose
network buckets differ, whose gap is at most 2 hours (the candidate hops),
and where additionally the internal classification of the two addresses
differs and the gap is at most 30 minutes; a candidate whose endpoints
classify alike (e.g. two internal addresses in different private ranges)
never flags, regardless of elapsed time. -/
theorem C3_geo_hop (events : List Event) (u : String) (f : Finding) :
    ((f ∈ detect_geo_hops events ∧ f.user_id = u) ↔
      ∃ pre a b post, qualLogins (eventsOfUser events u) = pre ++ a :: b :: post ∧
        b.ip_address ≠ a.ip_address ∧
        get_ip_network a.ip_address ≠ get_ip_network b.ip_address ∧
        (b.timestamp : Int) - a.timestamp ≤ 7200 ∧
        is_internal_ip a.ip_address ≠ is_internal_ip b.ip_address ∧
        (b.timestamp : Int) - a.timestamp ≤ 1800 ∧
        f = geoFinding u (mkCand a.ip_address a.timestamp b)) ∧
    (∀ c : GeoCand, is_internal_ip c.from_ip = is_internal_ip c.to_ip → geoFlag u c = []) := by
  constructor
  · rw [detect_geo_mem events u f]
    constructor
    · rintro ⟨c, hc, hf⟩
      obtain ⟨pre, a, b, post, hsplit, hb1, hb2, hb3, hce⟩ :=
        (geoCandidates_none_mem c _).mp hc
      obtain ⟨hflip, h30, hfe⟩ := (geoFlag_mem u c f).mp hf
      subst hce
      exact ⟨pre, a, b, post, hsplit, hb1, (signif_iff _ _).mp hb2, hb3, hflip, h30, hfe⟩
    · rintro ⟨pre, a, b, post, hsplit, hb1, hb2, hb3, hflip, h30, hfe⟩
      refine ⟨mkCand a.ip_address a.timestamp b, ?_, ?_⟩
      · exact (geoCandidates_none_mem _ _).mpr
          ⟨pre, a, b, post, hsplit, hb1, (signif_iff _ _).mpr hb2, hb3, rfl⟩
      · exact (geoFlag_mem _ _ _).mpr ⟨hflip, h30, hfe⟩
  · intro c hcc
    rw [geoFlag, if_neg]
    rintro ⟨h1, _⟩
    exact h1 hcc

/-- C3 witness: internal `10.0.0.5` then external `8.8.8.8` twenty minutes
later produces a `geo_hop` finding. -/
theorem C3_geo_hop_witness :
    geoFinding "u3" (mkCand "10.0.0.5" 1000
        { timestamp := 2200, user_id := "u3", ip_address := "8.8.8.8",
          action := "login_success" }) ∈
      detect_geo_hops
        [{ timestamp := 1000, user_id := "u3", ip_address := "10.0.0.5",
           action := "login_success" },
         { timestamp := 2200, user_id := "u3", ip_address := "8.8.8.8",
           action := "login_success" }] := by
  refine ((C3_geo_hop _ "u3" _).1.mpr
    ⟨[], { timestamp := 1000, user_id := "u3", ip_address := "10.0.0.5",
           action := "login_success" },
      { timestamp := 2200, user_id := "u3", ip_address := "8.8.8.8",
        action := "login_success" }, [],
      by decide, by decide, by decide, by decide, by decide, by decide, rfl⟩).1

/-! ## BruteForceDetector lemmas -/

theorem bfCheck_mem (o : List String → List String) (ip : String) (seg : List Event)
    (f : Finding) :
    f ∈ bfCheck o ip seg ↔ ∃ e0 rest, seg = e0 :: rest ∧ 3 ≤ (e0 :: rest).length ∧
      ((lastOf e0 rest).timestamp : Int) - e0.timestamp ≤ 600 ∧ f = bfFinding o ip e0 rest := by
  match seg with
  | [] => simp [bfCheck]
  | e0 :: rest =>
    rw [bfCheck]
    by_cases h3 : 3 ≤ (e0 :: rest).length
    · rw [if_pos h3]
      by_cases hsp : ((lastOf e0 rest).timestamp : Int) - e0.timestamp ≤ 600
      · rw [if_pos hsp]
        constructor
        · intro hf
          exact ⟨e0, rest, rfl, h3, hsp, by simpa using hf⟩
        · rintro ⟨e0', rest', heq, _, _, hfe⟩
          injection heq with h1 h2
          subst h1; subst h2
          simp [hfe]
      · rw [if_neg hsp]
        simp only [List.not_mem_nil, false_iff]
        rintro ⟨e0', rest', heq, _, hsp', _⟩
        injection heq with h1 h2
        subst h1; subst h2
        exact hsp hsp'
    · rw [if_neg h3]
      simp only [List.not_mem_nil, false_iff]
      rintro ⟨e0', rest', heq, h3', _, _⟩
      injection heq with h1 h2
      subst h1; subst h2
      exact h3 h3'

theorem bfScan_eq (o : List String → List String) (ip : String) :
    ∀ (l run : List Event),
      bfScan o ip run l = (failRunsAux run l).flatMap (bfCheck o ip) := by
  intro l
  induction l with
  | nil => intro run; simp [bfScan, failRunsAux]
  | cons e es ih =>
    intro run
    rw [bfScan, failRunsAux]
    by_cases hf : e.action = "login_failed"
    · rw [if_pos hf, if_pos hf, ih]
    · rw [if_neg hf, if_neg hf, List.flatMap_cons, ih]

theorem failRunsAux_decomp {seg : List Event} :
    ∀ (l run : List Event), seg ∈ failRunsAux run l →
      (∀ e ∈ run, e.action = "login_failed") → seg ≠ [] →
      ∃ pre post, run ++ l = pre ++ seg ++ post ∧
        (∀ e ∈ seg, e.action = "login_failed") ∧
        (pre = [] ∨ ∃ p x, pre = p ++ [x] ∧ x.action ≠ "login_failed") ∧
        (post = [] ∨ ∃ y q, post = y :: q ∧ y.action ≠ "login_failed") := by
  intro l
  induction l with
  | nil =>
    intro run hmem hrun hne
    rw [failRunsAux] at hmem
    rcases List.mem_cons.mp hmem with hseg | hseg
    · subst hseg
      exact ⟨[], [], by simp, hrun, Or.inl rfl, Or.inl rfl⟩
    · exact absurd hseg (List.not_mem_nil seg)
  | cons e es ih =>
    intro run hmem hrun hne
    rw [failRunsAux] at hmem
    by_cases hf : e.action = "login_failed"
    · rw [if_pos hf] at hmem
      have hrun' : ∀ x ∈ run ++ [e], x.action = "login_failed" := by
        intro x hx
        rcases List.mem_append.mp hx with hx | hx
        · exact hrun x hx
        · simp only [List.mem_singleton] at hx
          subst hx; exact hf
      obtain ⟨pre, post, heq, hsegf, hl, hr⟩ := ih (run ++ [e]) hmem hrun' hne
      refine ⟨pre, post, ?_, hsegf, hl, hr⟩
      rw [← heq]; simp
    · rw [if_neg hf] at hmem
      rcases List.mem_cons.mp hmem with hseg | hmem
      · subst hseg
        exact ⟨[], e :: es, by simp, hrun, Or.inl rfl, Or.inr ⟨e, es, rfl, hf⟩⟩
      · obtain ⟨pre, post, heq, hsegf, hl, hr⟩ := ih [] hmem (by simp) hne
        rw [List.nil_append] at heq
        refine ⟨run ++ [e] ++ pre, post, ?_, hsegf, Or.inr ?_, hr⟩
        · rw [heq]; simp
        · rcases hl with hl | ⟨p, x, hp, hx⟩
          · exact ⟨run, e, by simp [hl], hf⟩
          · exact ⟨run ++ [e] ++ p, x, by simp [hp], hx⟩

theorem failRunsAux_all_fail :
    ∀ (seg run rest : List Event), (∀ e ∈ seg, e.action = "login_failed") →
      failRunsAux run (seg ++ rest) = failRunsAux (run ++ seg) rest := by
  intro seg
  induction seg with
  | nil => intro run rest _; simp
  | cons e es ih =>
    intro run rest hall
    rw [List.cons_append, failRunsAux, if_pos (hall e (List.mem_cons_self e es)),
      ih (run ++ [e]) rest (fun x hx => hall x (List.mem_cons_of_mem e hx))]
    have : run ++ [e] ++ es = run ++ e :: es := by simp
    rw [this]

theorem failRunsAux_of_decomp :
    ∀ (pre seg post run : List Event),
      (∀ e ∈ seg, e.action = "login_failed") →
      ((pre = [] ∧ run = []) ∨ ∃ p x, pre = p ++ [x] ∧ x.action ≠ "login_failed") →
      (post = [] ∨ ∃ y q, post = y :: q ∧ y.action ≠ "login_failed") →
      seg ∈ failRunsAux run (pre ++ seg ++ post) := by
  intro pre
  induction pre with
  | nil =>
    intro seg post run hsegf hleft hright
    have hrun : run = [] := by
      rcases hleft with ⟨_, h⟩ | ⟨p, x, hp, _⟩
      · exact h
      · exact absurd hp.symm (List.append_ne_nil_of_right_ne_nil p (by simp))
    subst hrun
    rw [List.nil_append, failRunsAux_all_fail seg [] post hsegf, List.nil_append]
    rcases hright with h | ⟨y, q, hp, hy⟩
    · subst h
      rw [failRunsAux]
      exact List.mem_cons_self seg []
    · subst hp
      rw [failRunsAux, if_neg hy]
      exact List.mem_cons_self seg _
  | cons a pre' ih =>
    intro seg post run hsegf hleft hright
    rcases hleft with ⟨hp, _⟩ | ⟨p, x, hp, hx⟩
    · exact absurd hp (by simp)
    by_cases hfa : a.action = "login_failed"
    · match p, hp with
      | [], hp =>
        have : a = x := by
          have := (List.cons.injEq .. ▸ hp).1
          simpa using this
        exact absurd (this ▸ hfa) hx
      | b :: p', hp =>
        have hp' : pre' = p' ++ [x] := (List.cons.injEq .. ▸ hp).2
        have hgoal := ih seg post (run ++ [a]) hsegf (Or.inr ⟨p', x, hp', hx⟩) hright
        rw [List.cons_append, List.cons_append, failRunsAux, if_pos hfa]
        exact hgoal
    · rw [List.cons_append, List.cons_append, failRunsAux, if_neg hfa]
      apply List.mem_cons_of_mem
      match p, hp with
      | [], hp =>
        have hpre' : pre' = [] := (List.cons.injEq .. ▸ hp).2.symm ▸ rfl
        subst hpre'
        exact ih seg post [] hsegf (Or.inl ⟨rfl, rfl⟩) hright
      | b :: p', hp =>
        have hp' : pre' = p' ++ [x] := (List.cons.injEq .. ▸ hp).2
        exact ih seg post [] hsegf (Or.inr ⟨p', x, hp', hx⟩) hright

theorem bfScan_mem_iff (o : List String → List String) (ip : String) (L : List Event)
    (f : Finding) :
    f ∈ bfScan o ip [] L ↔
      ∃ pre e0 rest post, L = pre ++ (e0 :: rest) ++ post ∧
        3 ≤ (e0 :: rest).length ∧ (∀ e ∈ e0 :: rest, e.action = "login_failed") ∧
        ((lastOf e0 rest).timestamp : Int) - e0.timestamp ≤ 600 ∧
        (pre = [] ∨ ∃ p x, pre = p ++ [x] ∧ x.action ≠ "login_failed") ∧
        (post = [] ∨ ∃ y q, post = y :: q ∧ y.action ≠ "login_failed") ∧
        f = bfFinding o ip e0 rest := by
  rw [bfScan_eq]
  constructor
  · intro hmem
    obtain ⟨seg, hseg, hchk⟩ := List.mem_flatMap.mp hmem
    obtain ⟨e0, rest, hsegeq, h3, hsp, hfe⟩ := (bfCheck_mem o ip seg f).mp hchk
    subst hsegeq
    obtain ⟨pre, post, heq, hsegf, hl, hr⟩ :=
      failRunsAux_decomp L [] hseg (by simp) (by simp)
    rw [List.nil_append] at heq
    exact ⟨pre, e0, rest, post, heq, h3, hsegf, hsp, hl, hr, hfe⟩
  · rintro ⟨pre, e0, rest, post, heq, h3, hsegf, hsp, hl, hr, hfe⟩
    apply List.mem_flatMap.mpr
    refine ⟨e0 :: rest, ?_, (bfCheck_mem o ip _ f).mpr ⟨e0, rest, rfl, h3, hsp, hfe⟩⟩
    rw [heq]
    apply failRunsAux_of_decomp pre (e0 :: rest) post [] hsegf ?_ hr
    rcases hl with hl | hl
    · exact Or.inl ⟨hl, rfl⟩
    · exact Or.inr hl

theorem detect_bf_mem (o : List String → List String) (events : List Event) (ip : String)
    (f : Finding) :
    (f ∈ detect_brute_force_attempts o events ∧ f.ip_address = ip) ↔
      f ∈ bfScan o ip [] (eventsOfIp events ip) := by
  constructor
  · rintro ⟨hmem, hip⟩
    obtain ⟨ip', hip', hscan⟩ := List.mem_flatMap.mp hmem
    have hfi : f.ip_address = ip' := by
      obtain ⟨_, _, _, _, _, _, _, _, _, _, hfe⟩ :=
        (bfScan_mem_iff o ip' _ f).mp hscan
      rw [hfe]; rfl
    have h : ip' = ip := by rw [← hip, hfi]
    subst h
    exact hscan
  · intro hscan
    obtain ⟨pre, e0, rest, post, heq, _, _, _, _, _, hfe⟩ :=
      (bfScan_mem_iff o ip _ f).mp hscan
    have he0 : e0 ∈ eventsOfIp events ip := by rw [heq]; simp
    have he0ip : e0.ip_address = ip := by simpa using (List.mem_filter.mp he0).2
    have hipmem : ip ∈ uniqueFirst (events.map Event.ip_address) :=
      (mem_uniqueFirst _).mpr (List.mem_map.mpr ⟨e0, (List.mem_filter.mp he0).1, he0ip⟩)
    exact ⟨List.mem_flatMap.mpr ⟨ip, hipmem, hscan⟩, by rw [hfe]; rfl⟩

/-- C1: per IP, `detect_brute_force_attempts` emits a finding for that IP
exactly for the maximal runs of at least 3 consecutive `login_failed`
events (in the IP's chronological sub-sequence, a run being bounded by
non-`login_failed` events or the ends of the stream, including a run still
open at end-of-stream) whose first-to-last span is at most 10 minutes; each
finding is `bfFinding` for its run: located at the run's first failure,
high severity, type `brute_force_attempt`, details carrying the attempt
count, the span in minutes, and the run's distinct user ids (the
`list(set(...))` oracle output, a permutation of the dedup). -/
theorem C1_brute_force (o : List String → List String) (ho : PySetList o)
    (events : List Event) (ip : String) :
    (∀ f : Finding, (f ∈ detect_brute_force_attempts o events ∧ f.ip_address = ip) ↔
      ∃ pre e0 rest post, eventsOfIp events ip = pre ++ (e0 :: rest) ++ post ∧
        3 ≤ (e0 :: rest).length ∧ (∀ e ∈ e0 :: rest, e.action = "login_failed") ∧
        ((lastOf e0 rest).timestamp : Int) - e0.timestamp ≤ 600 ∧
        (pre = [] ∨ ∃ p x, pre = p ++ [x] ∧ x.action ≠ "login_failed") ∧
        (post = [] ∨ ∃ y q, post = y :: q ∧ y.action ≠ "login_failed") ∧
        f = bfFinding o ip e0 rest) ∧
    (∀ (e0 : Event) (rest : List Event),
      (bfFinding o ip e0 rest).timestamp = e0.timestamp ∧
      (bfFinding o ip e0 rest).user_id = e0.user_id ∧
      (bfFinding o ip e0 rest).ip_address = ip ∧
      (bfFinding o ip e0 rest).anomaly_type = "brute_force_attempt" ∧
      (bfFinding o ip e0 rest).severity = Severity.high ∧
      (bfFinding o ip e0 rest).details = Details.bruteForce (e0 :: rest).length
        (mkRat ((lastOf e0 rest).timestamp - (e0.timestamp : Int)) 60)
        (o ((e0 :: rest).map Event.user_id)) ∧
      (o ((e0 :: rest).map Event.user_id)).Perm ((e0 :: rest).map Event.user_id).dedup) := by
  constructor
  · intro f
    rw [detect_bf_mem o events ip f, bfScan_mem_iff]
  · intro e0 rest
    exact ⟨rfl, rfl, rfl, rfl, rfl, rfl, ho ((e0 :: rest).map Event.user_id)⟩

/-- C1 witness: Scenario A - three failures from one IP inside 4 minutes
produce a brute-force finding; the detector flags that IP. -/
theorem C1_brute_force_witness :
    (bfFinding setOrderA "203.0.113.5"
        { timestamp := 1000, user_id := "alice", ip_address := "203.0.113.5",
          action := "login_failed" }
        [{ timestamp := 1120, user_id := "bob", ip_address := "203.0.113.5",
           action := "login_failed" },
         { timestamp := 1240, user_id := "alice", ip_address := "203.0.113.5",
           action := "login_failed" }]
      ∈ detect_brute_force_attempts setOrderA sampleBruteRun) := by
  have h := (C1_brute_force setOrderA (fun xs => List.Perm.refl xs.dedup)
    sampleBruteRun "203.0.113.5").1
  refine ((h _).mpr ⟨[],
    { timestamp := 1000, user_id := "alice", ip_address := "203.0.113.5",
      action := "login_failed" },
    [{ timestamp := 1120, user_id := "bob", ip_address := "203.0.113.5",
       action := "login_failed" },
     { timestamp := 1240, user_id := "alice", ip_address := "203.0.113.5",
       action := "login_failed" }], [],
    by decide, by decide, by decide, by decide, Or.inl rfl, Or.inl rfl, rfl⟩).1

/-! ## Determinism up to set-iteration order (C4) -/

theorem DetailsMatch_refl : ∀ d : Details, DetailsMatch d d := by
  intro d
  cases d with
  | bruteForce c m us => exact ⟨rfl, rfl, List.Perm.refl us⟩
  | suspiciousIp => rfl
  | externalIp => rfl
  | geoHop a b m fi ti => rfl
  | offHours h bh e fa => rfl
  | privEsc n => rfl
  | exfil c s ts => rfl

theorem FindingMatch_refl : ∀ f : Finding, FindingMatch f f :=
  fun f => ⟨rfl, rfl, rfl, rfl, rfl, DetailsMatch_refl f.details⟩

theorem FindingMatch_key_eq {f g : Finding} (h : FindingMatch f g) : sortKey f = sortKey g := by
  obtain ⟨ht, _, _, _, hs, _⟩ := h
  simp [sortKey, ht, hs]

theorem FindingMatch_type_eq {f g : Finding} (h : FindingMatch f g) :
    f.anomaly_type = g.anomaly_type := h.2.2.2.1

theorem FindingMatch_sev_eq {f g : Finding} (h : FindingMatch f g) :
    f.severity = g.severity := h.2.2.2.2.1

theorem bfCheck_match (o₁ o₂ : List String → List String) (h₁ : PySetList o₁)
    (h₂ : PySetList o₂) (ip : String) (seg : List Event) :
    List.Forall₂ FindingMatch (bfCheck o₁ ip seg) (bfCheck o₂ ip seg) := by
  match seg with
  | [] => exact List.Forall₂.nil
  | e0 :: rest =>
    rw [bfCheck, bfCheck]
    by_cases h3 : 3 ≤ (e0 :: rest).length
    · rw [if_pos h3, if_pos h3]
      by_cases hsp : ((lastOf e0 rest).timestamp : Int) - e0.timestamp ≤ 600
      · rw [if_pos hsp, if_pos hsp]
        refine List.Forall₂.cons ⟨rfl, rfl, rfl, rfl, rfl, ?_⟩ List.Forall₂.nil
        exact ⟨rfl, rfl,
          (h₁ ((e0 :: rest).map Event.user_id)).trans
            (h₂ ((e0 :: rest).map Event.user_id)).symm⟩
      · rw [if_neg hsp, if_neg hsp]
        exact List.Forall₂.nil
    · rw [if_neg h3, if_neg h3]
      exact List.Forall₂.nil

theorem bfScan_match (o₁ o₂ : List String → List String) (h₁ : PySetList o₁)
    (h₂ : PySetList o₂) (ip : String) :
    ∀ (l run : List Event),
      List.Forall₂ FindingMatch (bfScan o₁ ip run l) (bfScan o₂ ip run l) := by
  intro l
  induction l with
  | nil => intro run; exact bfCheck_match o₁ o₂ h₁ h₂ ip run
  | cons e es ih =>
    intro run
    rw [bfScan, bfScan]
    by_cases hf : e.action = "login_failed"
    · rw [if_pos hf, if_pos hf]
      exact ih (run ++ [e])
    · rw [if_neg hf, if_neg hf]
      exact List.rel_append (bfCheck_match o₁ o₂ h₁ h₂ ip run) (ih [])

theorem flatMap_match {g₁ g₂ : String → List Finding}
    (h : ∀ x, List.Forall₂ FindingMatch (g₁ x) (g₂ x)) :
    ∀ l : List String, List.Forall₂ FindingMatch (l.flatMap g₁) (l.flatMap g₂) := by
  intro l
  induction l with
  | nil => exact List.Forall₂.nil
  | cons x xs ih => exact List.rel_append (h x) ih

theorem forall₂_self (l : List Finding) : List.Forall₂ FindingMatch l l :=
  (List.forall₂_same).mpr fun x _ => FindingMatch_refl x

theorem allAnomalies_match (o₁ o₂ : List String → List String) (h₁ : PySetList o₁)
    (h₂ : PySetList o₂) (events : List Event) :
    List.Forall₂ FindingMatch (allAnomalies o₁ events) (allAnomalies o₂ events) := by
  rw [allAnomalies, allAnomalies]
  refine List.rel_append (List.rel_append (List.rel_append (List.rel_append
    (List.rel_append ?_ (forall₂_self _)) (forall₂_self _)) (forall₂_self _))
    (forall₂_self _)) (forall₂_self _)
  exact flatMap_match (fun ip => bfScan_match o₁ o₂ h₁ h₂ ip (eventsOfIp events ip) []) _

theorem insertDesc_match {x y : Finding} (hxy : FindingMatch x y) :
    ∀ {l₁ l₂ : List Finding}, List.Forall₂ FindingMatch l₁ l₂ →
      List.Forall₂ FindingMatch (insertDesc x l₁) (insertDesc y l₂) := by
  intro l₁ l₂ h
  induction h with
  | nil => exact List.Forall₂.cons hxy List.Forall₂.nil
  | @cons a b tl₁ tl₂ ha h' ih =>
    rw [insertDesc, insertDesc]
    have hk : keyLe (sortKey a) (sortKey x) = keyLe (sortKey b) (sortKey y) := by
      rw [FindingMatch_key_eq ha, FindingMatch_key_eq hxy]
    by_cases hc : keyLe (sortKey b) (sortKey y) = true
    · rw [if_pos (show keyLe (sortKey a) (sortKey x) = true by rw [hk]; exact hc), if_pos hc]
      exact List.Forall₂.cons hxy (List.Forall₂.cons ha h')
    · rw [if_neg (show ¬ keyLe (sortKey a) (sortKey x) = true by rw [hk]; exact hc), if_neg hc]
      exact List.Forall₂.cons ha ih

theorem sortFindingsDesc_match :
    ∀ {l₁ l₂ : List Finding}, List.Forall₂ FindingMatch l₁ l₂ →
      List.Forall₂ FindingMatch (sortFindingsDesc l₁) (sortFindingsDesc l₂) := by
  intro l₁ l₂ h
  induction h with
  | nil => exact List.Forall₂.nil
  | cons ha h' ih => exact insertDesc_match ha ih

theorem forall₂_map_type :
    ∀ {l₁ l₂ : List Finding}, List.Forall₂ FindingMatch l₁ l₂ →
      l₁.map Finding.anomaly_type = l₂.map Finding.anomaly_type := by
  intro l₁ l₂ h
  induction h with
  | nil => rfl
  | cons ha _ ih => simp [FindingMatch_type_eq ha, ih]

theorem forall₂_map_sev :
    ∀ {l₁ l₂ : List Finding}, List.Forall₂ FindingMatch l₁ l₂ →
      l₁.map Finding.severity = l₂.map Finding.severity := by
  intro l₁ l₂ h
  induction h with
  | nil => rfl
  | cons ha _ ih => simp [FindingMatch_sev_eq ha, ih]

/-- C4 counterexample: two admissible set-iteration orders yield different
Reports on the same input - the order of the metadata anomaly-type list and
of a brute-force finding's `affected_users` list are not functions of the
input event sequence (Python salts string hashes per process, so
`list(set(...))` order varies across runs). -/
theorem C4_set_order_counterexample :
    PySetList setOrderA ∧ PySetList setOrderB ∧
    generate_report setOrderA [sampleOffHours] ≠ generate_report setOrderB [sampleOffHours] ∧
    (generate_report setOrderA [sampleOffHours]).anomaly_types ≠
      (generate_report setOrderB [sampleOffHours]).anomaly_types ∧
    detect_brute_force_attempts setOrderA sampleBruteRun ≠
      detect_brute_force_attempts setOrderB sampleBruteRun := by
  refine ⟨fun xs => List.Perm.refl xs.dedup, fun xs => List.reverse_perm xs.dedup,
    ?_, ?_, ?_⟩
  · decide
  · decide
  · decide

/-- C4 (amended): with the generation timestamp fixed, every Report field is
a deterministic function of the input except the ORDER of the two
`list(set(...))`-derived lists (metadata `anomaly_types` and each
brute-force finding's `affected_users`), which are deterministic only up to
permutation: any two admissible set-iteration orders give Reports agreeing
on the event count, the finding count, the severity histogram (values and
insertion order), and the entire sorted findings list field for field, with
`anomaly_types` and `affected_users` agreeing as sets.  (The omitted
`reason`/`mitigation_suggestions` strings are functions of fields covered
here.) -/
theorem C4_deterministic_up_to_set_order (o₁ o₂ : List String → List String)
    (h₁ : PySetList o₁) (h₂ : PySetList o₂) (events : List Event) :
    (generate_report o₁ events).total_log_entries =
      (generate_report o₂ events).total_log_entries ∧
    (generate_report o₁ events).total_anomalies_found =
      (generate_report o₂ events).total_anomalies_found ∧
    (generate_report o₁ events).anomaly_types.Perm
      (generate_report o₂ events).anomaly_types ∧
    (generate_report o₁ events).severity_distribution =
      (generate_report o₂ events).severity_distribution ∧
    List.Forall₂ FindingMatch (generate_report o₁ events).findings
      (generate_report o₂ events).findings := by
  have hfs : List.Forall₂ FindingMatch (run_analysis o₁ events) (run_analysis o₂ events) :=
    sortFindingsDesc_match (allAnomalies_match o₁ o₂ h₁ h₂ events)
  have hm := forall₂_map_type hfs
  refine ⟨rfl, hfs.length_eq, ?_, ?_, hfs⟩
  · show (o₁ ((run_analysis o₁ events).map Finding.anomaly_type)).Perm
      (o₂ ((run_analysis o₂ events).map Finding.anomaly_type))
    refine (h₁ _).trans ?_
    rw [hm]
    exact (h₂ _).symm
  · show counterFold ((run_analysis o₁ events).map Finding.severity) =
      counterFold ((run_analysis o₂ events).map Finding.severity)
    rw [forall₂_map_sev hfs]

/-- C4 witness: the two concrete set orders agree on the histogram and on
the anomaly-type set for the sample input. -/
theorem C4_deterministic_up_to_set_order_witness :
    (generate_report setOrderA [sampleOffHours]).severity_distribution =
      (generate_report setOrderB [sampleOffHours]).severity_distribution ∧
    (generate_report setOrderA [sampleOffHours]).anomaly_types.Perm
      (generate_report setOrderB [sampleOffHours]).anomaly_types := by
  have h := C4_deterministic_up_to_set_order setOrderA setOrderB
    (fun xs => List.Perm.refl xs.dedup) (fun xs => List.reverse_perm xs.dedup)
    [sampleOffHours]
  exact ⟨h.2.2.2.1, h.2.2.1⟩
